import Mathlib

/-!
# Snake engine (`src/games/snake/game.js`)

A shallow embedding of the class `SnakeGame`: the engine state is a record, every
method is a function on that record. The legacy script `src/snake.js` is embedded
the same way, as far as its `update()` goes.

Modelling conventions.

* JavaScript numbers that hold grid coordinates, scores and intervals are
  mathematical integers (the engine only ever adds and subtracts small integers).
* `parseInt` returns a Number: the integer it reads from the text (`parseIntMath`)
  converted to the nearest double. The engine record keeps `highScore` as an integer,
  which is that Number whenever the stored number is below `2 ^ 53` in size.
* `tileCount = canvas.width / gridSize` is taken as a natural number (a canvas whose
  width is a multiple of the cell size); the canvas itself is not part of the engine.
* `Math.random` is an explicit stream `random : Nat → ℚ`; the engine records how many
  values it has consumed in the field `drawn`.
* The `while` loop of `generateFood` is bounded by a fuel argument; `none` stands for
  a loop that has not returned within the fuel.
* `setInterval` / `clearInterval` act on an explicit list of live timers.
* `localStorage` is reduced to the single key `'snakeHighScore'`.
* DOM updates (overlay, buttons, particles, canvas drawing) are left out, except that
  `createFoodParticles` still consumes its twelve `Math.random` values.
-/

namespace SnakeGame

/-! ## Data model -/

/-- A pair `{ x, y }`: a grid cell, or a direction delta. -/
structure Pos where
  x : Int
  y : Int
deriving DecidableEq

/-- The field `gameState`: `'menu'`, `'playing'`, `'paused'`, `'gameOver'`. -/
inductive GameState where
  | menu
  | playing
  | paused
  | gameOver
deriving DecidableEq

/-- A live interval timer: the handle returned by `setInterval` and its period. -/
structure Timer where
  handle : Nat
  interval : Int
deriving DecidableEq

/-- The mutable fields of a `SnakeGame` instance together with the parts of the
browser it acts on (live timers, the stored high score, consumed random values). -/
structure Engine where
  tileCount : Nat
  gameState : GameState
  snake : List Pos
  food : Option Pos
  direction : Pos
  nextDirection : Pos
  score : Nat
  highScore : Int
  gameSpeed : Int
  gameLoop : Option Nat
  timers : List Timer
  nextHandle : Nat
  storage : Option String
  drawn : Nat
deriving DecidableEq

/-! ## Browser primitives -/

/-- Code points that `parseInt` skips at the start of its argument
(ECMAScript `WhiteSpace` and `LineTerminator`). -/
def isStrWhiteSpaceChar (c : Char) : Bool :=
  [0x09, 0x0A, 0x0B, 0x0C, 0x0D, 0x20, 0xA0, 0x1680, 0x2000, 0x2001, 0x2002, 0x2003,
   0x2004, 0x2005, 0x2006, 0x2007, 0x2008, 0x2009, 0x200A, 0x2028, 0x2029, 0x202F,
   0x205F, 0x3000, 0xFEFF].contains c.toNat

/-- Value of a character as a digit in some radix up to 36. -/
def digitValue (c : Char) : Option Nat :=
  if 48 ≤ c.toNat ∧ c.toNat ≤ 57 then some (c.toNat - 48)
  else if 97 ≤ c.toNat ∧ c.toNat ≤ 122 then some (c.toNat - 87)
  else if 65 ≤ c.toNat ∧ c.toNat ≤ 90 then some (c.toNat - 55)
  else none

/-- The longest run of leading characters that are digits of the radix. -/
def takeDigits (radix : Nat) : List Char → List Nat
  | [] => []
  | c :: cs =>
    match digitValue c with
    | some d => if d < radix then d :: takeDigits radix cs else []
    | none => []

/-- Positional value of a digit list, most significant digit first. -/
def digitsValue (radix : Nat) (ds : List Nat) : Nat :=
  ds.foldl (fun acc d => acc * radix + d) 0

/-- Split off a leading sign of the text `parseInt` reads. -/
def splitSign : List Char → Bool × List Char
  | '-' :: cs => (true, cs)
  | '+' :: cs => (false, cs)
  | cs => (false, cs)

/-- Split off a leading `0x` / `0X`, which switches `parseInt` to radix 16. -/
def splitRadix : List Char → Nat × List Char
  | '0' :: 'x' :: cs => (16, cs)
  | '0' :: 'X' :: cs => (16, cs)
  | cs => (10, cs)

/-- The mathematical integer that `parseInt(string)`, called with one argument, reads
from its text (`mathInt` with its sign, in the words of ECMAScript), before the
conversion to a Number; `none` when there is no digit to read. -/
def parseIntMath (s : String) : Option Int :=
  let trimmed := s.toList.dropWhile isStrWhiteSpaceChar
  let signed := splitSign trimmed
  let based := splitRadix signed.2
  let ds := takeDigits based.1 based.2
  if ds = [] then none
  else if signed.1 then some (-(digitsValue based.1 ds : Int))
  else some (digitsValue based.1 ds : Int)

/-- `Number.prototype.toString()` on an integer value. -/
def numberToString (v : Int) : String :=
  match v with
  | Int.ofNat n => Nat.repr n
  | Int.negSucc n => "-" ++ Nat.repr (n + 1)

/-- `parseInt(localStorage.getItem('snakeHighScore')) || 0` as an exact integer: an
absent key makes `getItem` return `null`, which `parseInt` reads as the text `null`;
`NaN` and `0` are falsy. This is the value the code loads whenever the stored number
is at most `2 ^ 53` in size (see `loadHighScoreNumber` for the Number itself). -/
def loadHighScore (storage : Option String) : Int :=
  match parseIntMath (storage.getD "null") with
  | none => 0
  | some v => v

/-- A JavaScript Number, as far as `parseInt` can return one: `NaN`, a finite value
(always an integer here), or an infinity. -/
inductive JSNumber where
  | nan
  | finite (v : Int)
  | infinity (negative : Bool)
deriving DecidableEq

/-- The binary exponent of the last place of the double nearest to `n`: the least
exponent `e`, searched upwards, with `n / 2 ^ e < 2 ^ 53`. -/
def ulpExponent : Nat → Nat → Nat → Nat
  | 0, e, _ => e
  | fuel + 1, e, n => if n / 2 ^ e < 2 ^ 53 then e else ulpExponent fuel (e + 1) n

/-- The IEEE 754 double nearest to a natural number (53 significant bits, round to
nearest, ties to even); `none` when the rounded value is `2 ^ 1024` or more, which
is `Infinity`. -/
def roundToDouble (n : Nat) : Option Nat :=
  let e := ulpExponent n 0 n
  let q := n / 2 ^ e
  let r := n % 2 ^ e
  let q1 := if 2 * r > 2 ^ e ∨ (2 * r = 2 ^ e ∧ q % 2 = 1) then q + 1 else q
  if q1 * 2 ^ e < 2 ^ 1024 then some (q1 * 2 ^ e) else none

/-- The global `parseInt(string)` called with one argument: the integer read from
the text, converted to a Number as engines do that convert the digit run exactly
(ECMAScript leaves digits after the twentieth to the implementation). -/
def parseInt (s : String) : JSNumber :=
  match parseIntMath s with
  | none => JSNumber.nan
  | some v =>
    match roundToDouble v.natAbs with
    | none => JSNumber.infinity (decide (v < 0))
    | some m => JSNumber.finite (if v < 0 then -(m : Int) else (m : Int))

/-- The expression `value || 0` on a Number: `NaN` and `0` are falsy. -/
def numberOrZero (value : JSNumber) : JSNumber :=
  match value with
  | JSNumber.nan => JSNumber.finite 0
  | JSNumber.finite v => JSNumber.finite v
  | JSNumber.infinity negative => JSNumber.infinity negative

/-- `parseInt(localStorage.getItem('snakeHighScore')) || 0` as the Number the
constructor assigns to `highScore`. -/
def loadHighScoreNumber (storage : Option String) : JSNumber :=
  numberOrZero (parseInt (storage.getD "null"))

/-- `setInterval(() => this.update(), interval)`: a new live timer, and its handle. -/
def setInterval (st : Engine) (interval : Int) : Engine × Nat :=
  ({ st with timers := st.timers ++ [⟨st.nextHandle, interval⟩],
             nextHandle := st.nextHandle + 1 }, st.nextHandle)

/-- `clearInterval(handle)`; `null` and unknown handles are ignored. -/
def clearInterval (st : Engine) (handle : Option Nat) : Engine :=
  match handle with
  | none => st
  | some h => { st with timers := st.timers.filter (fun t => t.handle != h) }

/-! ## The engine -/

/-- The state written by the constructor of `SnakeGame`. -/
def newSnakeGame (storage : Option String) (tileCount : Nat) : Engine :=
  { tileCount := tileCount
    gameState := GameState.menu
    snake := []
    food := none
    direction := ⟨0, 0⟩
    nextDirection := ⟨0, 0⟩
    score := 0
    highScore := loadHighScore storage
    gameSpeed := 120
    gameLoop := none
    timers := []
    nextHandle := 1
    storage := storage
    drawn := 0 }

/-- `this.snake.some(segment => segment.x === p.x && segment.y === p.y)`. -/
def onSnake (snake : List Pos) (p : Pos) : Bool :=
  snake.any (fun segment => segment.x == p.x && segment.y == p.y)

/-- The cell drawn by one iteration of `generateFood` from the random values number
`i` and `i + 1`: `Math.floor(Math.random() * this.tileCount)` on each axis. -/
def randomCell (random : Nat → ℚ) (tileCount : Nat) (i : Nat) : Pos :=
  ⟨⌊random i * (tileCount : ℚ)⌋, ⌊random (i + 1) * (tileCount : ℚ)⌋⟩

/-- `generateFood()`: rejection sampling until a cell off the snake is drawn. -/
def generateFood (random : Nat → ℚ) : Nat → Engine → Option Engine
  | 0, _ => none
  | fuel + 1, st =>
    let newFood := randomCell random st.tileCount st.drawn
    let st1 := { st with drawn := st.drawn + 2 }
    if !(onSnake st1.snake newFood) then some { st1 with food := some newFood }
    else generateFood random fuel st1

/-- `createFoodParticles()`: six particles, two random velocities each. -/
def createFoodParticles (st : Engine) : Engine :=
  { st with drawn := st.drawn + 12 }

/-- `setDirection(x, y)`. -/
def setDirection (st : Engine) (x y : Int) : Engine :=
  if st.gameState ≠ GameState.playing then st
  else if st.direction.x = -x ∧ st.direction.y = -y then st
  else { st with nextDirection := ⟨x, y⟩ }

/-- `startGame()`. -/
def startGame (random : Nat → ℚ) (fuel : Nat) (st : Engine) : Option Engine :=
  let st1 := { st with gameState := GameState.playing, score := 0, gameSpeed := 120 }
  let centerX : Int := ((st1.tileCount / 2 : Nat) : Int)
  let centerY : Int := ((st1.tileCount / 2 : Nat) : Int)
  let st2 := { st1 with
    snake := [⟨centerX, centerY⟩, ⟨centerX - 1, centerY⟩, ⟨centerX - 2, centerY⟩]
    direction := ⟨1, 0⟩
    nextDirection := ⟨1, 0⟩ }
  match generateFood random fuel st2 with
  | none => none
  | some st3 =>
    let started := setInterval st3 st3.gameSpeed
    some { started.1 with gameLoop := some started.2 }

/-- `togglePause()`. -/
def togglePause (st : Engine) : Engine :=
  if st.gameState = GameState.playing then
    let st1 := { st with gameState := GameState.paused }
    clearInterval st1 st1.gameLoop
  else if st.gameState = GameState.paused then
    let st1 := { st with gameState := GameState.playing }
    let resumed := setInterval st1 st1.gameSpeed
    { resumed.1 with gameLoop := some resumed.2 }
  else st

/-- `restartGame()`. -/
def restartGame (random : Nat → ℚ) (fuel : Nat) (st : Engine) : Option Engine :=
  startGame random fuel (clearInterval st st.gameLoop)

/-- `gameOver()`. -/
def gameOver (st : Engine) : Engine :=
  let st1 := { st with gameState := GameState.gameOver }
  let st2 := clearInterval st1 st1.gameLoop
  if (st2.score : Int) > st2.highScore then
    { st2 with highScore := (st2.score : Int)
               storage := some (numberToString (st2.score : Int)) }
  else st2

/-- The head computed by `update()`: `snake[0]` moved by the committed direction. -/
def movedHead (s0 d : Pos) : Pos :=
  ⟨s0.x + d.x, s0.y + d.y⟩

/-- The wall test of `update()`. -/
def hitsWall (tileCount : Nat) (head : Pos) : Bool :=
  decide (head.x < 0) || decide (head.x ≥ (tileCount : Int)) ||
    decide (head.y < 0) || decide (head.y ≥ (tileCount : Int))

/-- `update()`, one tick. With an empty snake `snake[0]` is `undefined`, the head has
`NaN` coordinates, every comparison fails, and the `unshift` is undone by the `pop`. -/
def update (random : Nat → ℚ) (fuel : Nat) (st : Engine) : Option Engine :=
  if st.gameState ≠ GameState.playing then some st
  else
    let st1 := { st with direction := st.nextDirection }
    match st1.snake with
    | [] => some st1
    | s0 :: _ =>
      let head := movedHead s0 st1.direction
      if hitsWall st1.tileCount head then some (gameOver st1)
      else if onSnake st1.snake head then some (gameOver st1)
      else
        let st2 := { st1 with snake := head :: st1.snake }
        if st2.food = some head then
          let st3 := createFoodParticles { st2 with score := st2.score + 1 }
          match generateFood random fuel st3 with
          | none => none
          | some st4 =>
            if st4.score % 5 = 0 ∧ st4.gameSpeed > 60 then
              let st5 := { st4 with gameSpeed := st4.gameSpeed - 5 }
              let st6 := clearInterval st5 st5.gameLoop
              let rescheduled := setInterval st6 st6.gameSpeed
              some { rescheduled.1 with gameLoop := some rescheduled.2 }
            else some st4
        else some { st2 with snake := st2.snake.dropLast }

/-- The state `update()` works on after committing the pending direction. -/
def commitDirection (st : Engine) : Engine :=
  { st with direction := st.nextDirection }

/-- The state after the `unshift`, the score increment and `createFoodParticles()`
of an eating tick, on which `generateFood()` is then called. -/
def eatState (st : Engine) (head : Pos) : Engine :=
  createFoodParticles { commitDirection st with snake := head :: st.snake, score := st.score + 1 }

/-- The speed adjustment at the end of an eating tick. -/
def adjustSpeed (st : Engine) : Engine :=
  if st.score % 5 = 0 ∧ st.gameSpeed > 60 then
    let st5 := { st with gameSpeed := st.gameSpeed - 5 }
    let st6 := clearInterval st5 st5.gameLoop
    let rescheduled := setInterval st6 st6.gameSpeed
    { rescheduled.1 with gameLoop := some rescheduled.2 }
  else st

/-- The new head is inside the grid. -/
def inGrid (tileCount : Nat) (p : Pos) : Prop :=
  0 ≤ p.x ∧ p.x < (tileCount : Int) ∧ 0 ≤ p.y ∧ p.y < (tileCount : Int)

instance (tileCount : Nat) (p : Pos) : Decidable (inGrid tileCount p) := by
  unfold inGrid; infer_instance

/-! ## Sample inputs -/

/-- A random source that always returns `0`, so that every drawn cell is `(0, 0)`. -/
def zeroRandom : Nat → ℚ := fun _ => 0

/-- A game in progress on a 20 × 20 grid: the start snake, food directly ahead. -/
def foodAheadEngine : Engine :=
  { tileCount := 20
    gameState := GameState.playing
    snake := [⟨10, 10⟩, ⟨9, 10⟩, ⟨8, 10⟩]
    food := some ⟨11, 10⟩
    direction := ⟨1, 0⟩
    nextDirection := ⟨1, 0⟩
    score := 0
    highScore := 0
    gameSpeed := 120
    gameLoop := some 1
    timers := [⟨1, 120⟩]
    nextHandle := 2
    storage := none
    drawn := 2 }

/-- A game in progress whose head is in the last column, heading right. -/
def atWallEngine : Engine :=
  { foodAheadEngine with snake := [⟨19, 10⟩, ⟨18, 10⟩, ⟨17, 10⟩], food := some ⟨3, 3⟩ }

/-! ## Vocabulary of the statements -/

/-- The tick of `update()` on `st` is one that eats: the game is playing and the new
head is inside the grid, on no segment, and on the food. -/
def eatsFood (st : Engine) : Prop :=
  st.gameState = GameState.playing ∧
    ∃ s0 rest, st.snake = s0 :: rest ∧
      inGrid st.tileCount (movedHead s0 st.nextDirection) ∧
      movedHead s0 st.nextDirection ∉ st.snake ∧
      st.food = some (movedHead s0 st.nextDirection)

/-- The three segments `startGame()` places around the centre of the grid. -/
def startSnake (tileCount : Nat) : List Pos :=
  [⟨((tileCount / 2 : Nat) : Int), ((tileCount / 2 : Nat) : Int)⟩,
   ⟨((tileCount / 2 : Nat) : Int) - 1, ((tileCount / 2 : Nat) : Int)⟩,
   ⟨((tileCount / 2 : Nat) : Int) - 2, ((tileCount / 2 : Nat) : Int)⟩]

/-- The four directions the key and touch handlers pass to `setDirection`. -/
def isUnitDirection (d : Pos) : Prop :=
  d = ⟨0, -1⟩ ∨ d = ⟨0, 1⟩ ∨ d = ⟨-1, 0⟩ ∨ d = ⟨1, 0⟩

instance (d : Pos) : Decidable (isUnitDirection d) := by
  unfold isUnitDirection; infer_instance

/-- The exact negation of a direction. -/
def opposite (d : Pos) : Pos :=
  ⟨-d.x, -d.y⟩

/-- A sequence of `setDirection` calls, in order. -/
def setDirections (st : Engine) (cmds : List Pos) : Engine :=
  cmds.foldl (fun s d => setDirection s d.x d.y) st

/-- The state after `n` successive calls of `update()`. -/
def ticks (random : Nat → ℚ) (fuel : Nat) : Nat → Engine → Option Engine
  | 0, st => some st
  | n + 1, st =>
    match ticks random fuel n st with
    | none => none
    | some s => update random fuel s

/-- States reachable after `startGame()`: the result of `startGame()` on any engine,
closed under ticks, direction commands with unit arguments, pause toggles and
restarts. -/
inductive Reachable (random : Nat → ℚ) : Engine → Prop where
  | start (fuel : Nat) (st0 st : Engine) :
      startGame random fuel st0 = some st → Reachable random st
  | tick (fuel : Nat) (st st' : Engine) :
      Reachable random st → update random fuel st = some st' → Reachable random st'
  | turn (st : Engine) (d : Pos) :
      Reachable random st → isUnitDirection d → Reachable random (setDirection st d.x d.y)
  | pause (st : Engine) :
      Reachable random st → Reachable random (togglePause st)
  | restart (fuel : Nat) (st st' : Engine) :
      Reachable random st → restartGame random fuel st = some st' → Reachable random st'

/-- A call that may arrive while the game is paused: a timer tick or a direction
command. -/
inductive Call where
  | update
  | setDirection (x y : Int)
deriving DecidableEq

/-- Run a sequence of calls, in order. -/
def runCalls (random : Nat → ℚ) (fuel : Nat) : List Call → Engine → Option Engine
  | [], st => some st
  | Call.update :: cs, st =>
    match update random fuel st with
    | none => none
    | some s => runCalls random fuel cs s
  | Call.setDirection x y :: cs, st => runCalls random fuel cs (setDirection st x y)

/-- The engine right after `startGame()` on a fresh 20 × 20 game when every random
value is `0`: the food is at `(0, 0)`. -/
def startedEngine : Engine :=
  { foodAheadEngine with food := some ⟨0, 0⟩ }

/-- The shape of the engine after `n` ticks of the straight run to the right on a
20 × 20 grid: still playing and heading right, the head in column `10 + n` of row 10,
every other segment behind it in the same row. -/
def onRightRun (n : Nat) (s : Engine) : Prop :=
  s.tileCount = 20 ∧ s.gameState = GameState.playing ∧ s.nextDirection = ⟨1, 0⟩ ∧
    ∃ rest, s.snake = ⟨10 + (n : Int), 10⟩ :: rest ∧
      ∀ p ∈ rest, p.y = 10 ∧ p.x < 10 + (n : Int)

/-- A game about to hit the wall with score 7, the stored high score being 3. -/
def scoredEngine : Engine :=
  { atWallEngine with score := 7, highScore := 3, storage := some "3" }

/-! ## Keyboard input -/

/-- `handleKeyPress(e)`, as a function of `e.key`; the `switch` has no default case. -/
def handleKeyPress (random : Nat → ℚ) (fuel : Nat) (key : String) (st : Engine) :
    Option Engine :=
  if key = " " ∨ key = "Space" ∨ key = "Enter" then
    if st.gameState = GameState.menu then startGame random fuel st
    else if st.gameState = GameState.gameOver then restartGame random fuel st
    else if st.gameState = GameState.playing then some (togglePause st)
    else some st
  else if key = "r" ∨ key = "R" then
    if st.gameState = GameState.gameOver ∨ st.gameState = GameState.paused then
      restartGame random fuel st
    else some st
  else if key = "ArrowUp" ∨ key = "w" ∨ key = "W" then some (setDirection st 0 (-1))
  else if key = "ArrowDown" ∨ key = "s" ∨ key = "S" then some (setDirection st 0 1)
  else if key = "ArrowLeft" ∨ key = "a" ∨ key = "A" then some (setDirection st (-1) 0)
  else if key = "ArrowRight" ∨ key = "d" ∨ key = "D" then some (setDirection st 1 0)
  else some st

/-- The same key press delivered twice in succession. -/
def handleKeyPressTwice (random : Nat → ℚ) (fuel : Nat) (key : String) (st : Engine) :
    Option Engine :=
  match handleKeyPress random fuel key st with
  | none => none
  | some s => handleKeyPress random fuel key s

/-- The keys on which `handleKeyPress` starts, restarts or pauses the game. -/
def isStartKey (key : String) : Prop :=
  key = " " ∨ key = "Space" ∨ key = "Enter"

instance (key : String) : Decidable (isStartKey key) := by
  unfold isStartKey; infer_instance

/-- A paused game, as `togglePause()` leaves the sample game. -/
def pausedEngine : Engine :=
  togglePause foodAheadEngine

/-! ## Timers -/

/-- Engines reached from a freshly constructed one by calls of `startGame()`,
`restartGame()`, `togglePause()`, `update()` and `gameOver()`, where `startGame()` is
only called while the game is not playing, as at each of its call sites (the handlers
test for `'menu'`, and `updateUI()` disables the start button while playing). -/
inductive GatedRun (random : Nat → ℚ) : Engine → Prop where
  | fresh (storage : Option String) (tileCount : Nat) :
      GatedRun random (newSnakeGame storage tileCount)
  | start (fuel : Nat) (st st' : Engine) :
      GatedRun random st → st.gameState ≠ GameState.playing →
      startGame random fuel st = some st' → GatedRun random st'
  | restart (fuel : Nat) (st st' : Engine) :
      GatedRun random st → restartGame random fuel st = some st' → GatedRun random st'
  | pause (st : Engine) :
      GatedRun random st → GatedRun random (togglePause st)
  | tick (fuel : Nat) (st st' : Engine) :
      GatedRun random st → update random fuel st = some st' → GatedRun random st'
  | over (st : Engine) :
      GatedRun random st → GatedRun random (gameOver st)

/-- The timer discipline: a playing game has exactly one live timer, the one
`gameLoop` names, and a game in any other state has none. -/
def timerInvariant (st : Engine) : Prop :=
  (st.gameState = GameState.playing →
    ∃ t, st.timers = [t] ∧ st.gameLoop = some t.handle) ∧
  (st.gameState ≠ GameState.playing → st.timers = [])

/-! ## The legacy script (`src/snake.js`) -/

/-- The global `direction` of the legacy script: `'up'`, `'down'`, `'left'`,
`'right'`. -/
inductive LegacyDirection where
  | up
  | down
  | left
  | right
deriving DecidableEq

/-- The global variables of the legacy script; `cols` and `rows` are
`canvas.width / gridSize` and `canvas.height / gridSize`. -/
structure LegacyGame where
  cols : Nat
  rows : Nat
  snake : List Pos
  food : Option Pos
  direction : LegacyDirection
  score : Nat
  gameOver : Bool
  drawn : Nat
deriving DecidableEq

/-- The legacy `generateFood()`: one draw, no test against the snake. -/
def legacyGenerateFood (random : Nat → ℚ) (g : LegacyGame) : LegacyGame :=
  { g with
    food := some ⟨⌊random g.drawn * (g.cols : ℚ)⌋, ⌊random (g.drawn + 1) * (g.rows : ℚ)⌋⟩
    drawn := g.drawn + 2 }

/-- The head the legacy `update()` computes in its `switch (direction)`. -/
def legacyHead (s0 : Pos) (d : LegacyDirection) : Pos :=
  match d with
  | LegacyDirection.up => ⟨s0.x, s0.y - 1⟩
  | LegacyDirection.down => ⟨s0.x, s0.y + 1⟩
  | LegacyDirection.left => ⟨s0.x - 1, s0.y⟩
  | LegacyDirection.right => ⟨s0.x + 1, s0.y⟩

/-- The legacy `update()`. Reading `snake[0].x` of an empty snake throws, which is
`none` here; the self-collision loop starts at index 1. -/
def legacyUpdate (random : Nat → ℚ) (g : LegacyGame) : Option LegacyGame :=
  if g.gameOver then some g
  else
    match g.snake with
    | [] => none
    | s0 :: rest =>
      let head := legacyHead s0 g.direction
      if head.x < 0 ∨ head.x ≥ (g.cols : Int) ∨ head.y < 0 ∨ head.y ≥ (g.rows : Int) then
        some { g with gameOver := true }
      else if rest.any (fun segment => head.x == segment.x && head.y == segment.y) then
        some { g with gameOver := true }
      else
        let g1 := { g with snake := head :: g.snake }
        if g1.food = some head then
          some (legacyGenerateFood random { g1 with score := g1.score + 1 })
        else some { g1 with snake := g1.snake.dropLast }

/-- The unit delta vector the engine uses for a legacy direction. -/
def directionDelta (d : LegacyDirection) : Pos :=
  match d with
  | LegacyDirection.up => ⟨0, -1⟩
  | LegacyDirection.down => ⟨0, 1⟩
  | LegacyDirection.left => ⟨-1, 0⟩
  | LegacyDirection.right => ⟨1, 0⟩

/-- The legacy game with the same grid, snake, food and score as an engine. -/
def legacyOf (st : Engine) (d : LegacyDirection) : LegacyGame :=
  { cols := st.tileCount
    rows := st.tileCount
    snake := st.snake
    food := st.food
    direction := d
    score := st.score
    gameOver := false
    drawn := st.drawn }

/-! ## Basic facts -/

theorem onSnake_eq_true_iff (snake : List Pos) (p : Pos) :
    onSnake snake p = true ↔ p ∈ snake := by
  unfold onSnake
  rw [List.any_eq_true]
  constructor
  · rintro ⟨seg, hmem, h⟩
    simp only [Bool.and_eq_true, beq_iff_eq] at h
    have : seg = p := by
      cases seg; cases p; simp_all
    exact this ▸ hmem
  · intro h
    exact ⟨p, h, by simp⟩

theorem onSnake_eq_false_iff (snake : List Pos) (p : Pos) :
    onSnake snake p = false ↔ p ∉ snake := by
  rw [← onSnake_eq_true_iff]; simp

theorem hitsWall_eq_false_iff (tileCount : Nat) (p : Pos) :
    hitsWall tileCount p = false ↔ inGrid tileCount p := by
  unfold hitsWall inGrid
  simp only [Bool.or_eq_false_iff, decide_eq_false_iff_not, not_lt, ge_iff_le, not_le]
  tauto

theorem hitsWall_eq_true_iff (tileCount : Nat) (p : Pos) :
    hitsWall tileCount p = true ↔ ¬ inGrid tileCount p := by
  rw [← hitsWall_eq_false_iff]; simp

/-- Whatever `generateFood()` returns differs from its argument only in `food` and
`drawn`, and the food is a drawn cell that is on no segment. -/
theorem generateFood_some (random : Nat → ℚ) :
    ∀ (fuel : Nat) (st st' : Engine), generateFood random fuel st = some st' →
      ∃ k, k < fuel ∧ randomCell random st.tileCount (st.drawn + 2 * k) ∉ st.snake ∧
        st' = { st with food := some (randomCell random st.tileCount (st.drawn + 2 * k))
                        drawn := st.drawn + 2 * (k + 1) } := by
  intro fuel
  induction fuel with
  | zero => intro st st' h; simp [generateFood] at h
  | succ n ih =>
    intro st st' h
    unfold generateFood at h
    by_cases hc : onSnake st.snake (randomCell random st.tileCount st.drawn) = true
    · simp only [hc, Bool.not_true, Bool.false_eq_true, if_false] at h
      obtain ⟨k, hk, hfree, hst⟩ := ih _ _ h
      refine ⟨k + 1, by omega, ?_, ?_⟩
      · have e : st.drawn + 2 * (k + 1) = st.drawn + 2 + 2 * k := by ring
        rw [e]; exact hfree
      · rw [hst]
        have e : st.drawn + 2 * (k + 1) = st.drawn + 2 + 2 * k := by ring
        have e2 : st.drawn + 2 + 2 * (k + 1) = st.drawn + 2 * (k + 1 + 1) := by ring
        simp only [e, e2]
    · simp only [Bool.not_eq_true] at hc
      simp only [hc, Bool.not_false, if_true, Option.some.injEq] at h
      refine ⟨0, by omega, ?_, ?_⟩
      · rw [← onSnake_eq_false_iff]; simpa using hc
      · rw [← h]; simp

/-- `generateFood()` returns as soon as the random source offers a free cell within
the fuel. -/
theorem generateFood_returns (random : Nat → ℚ) :
    ∀ (fuel : Nat) (st : Engine) (k : Nat), k < fuel →
      randomCell random st.tileCount (st.drawn + 2 * k) ∉ st.snake →
      ∃ st', generateFood random fuel st = some st' := by
  intro fuel
  induction fuel with
  | zero => intro st k hk; omega
  | succ n ih =>
    intro st k hk hfree
    unfold generateFood
    by_cases hc : onSnake st.snake (randomCell random st.tileCount st.drawn) = true
    · simp only [hc, Bool.not_true, Bool.false_eq_true, if_false]
      cases k with
      | zero =>
        rw [← onSnake_eq_false_iff] at hfree
        simp [hc] at hfree
      | succ j =>
        apply ih _ j (by omega)
        have e : st.drawn + 2 * (j + 1) = st.drawn + 2 + 2 * j := by ring
        rw [e] at hfree
        exact hfree
    · simp only [Bool.not_eq_true] at hc
      simp [hc]

theorem update_not_playing (random : Nat → ℚ) (fuel : Nat) (st : Engine)
    (h : st.gameState ≠ GameState.playing) : update random fuel st = some st := by
  simp [update, h]

theorem update_collide (random : Nat → ℚ) (fuel : Nat) (st : Engine) (s0 : Pos)
    (rest : List Pos) (hplay : st.gameState = GameState.playing)
    (hsnake : st.snake = s0 :: rest)
    (hcol : ¬ inGrid st.tileCount (movedHead s0 st.nextDirection) ∨
      movedHead s0 st.nextDirection ∈ st.snake) :
    update random fuel st = some (gameOver (commitDirection st)) := by
  unfold update commitDirection
  simp only [hplay, ne_eq, not_true_eq_false, if_false, hsnake]
  by_cases hw : hitsWall st.tileCount (movedHead s0 st.nextDirection) = true
  · simp [hw]
  · have hin : inGrid st.tileCount (movedHead s0 st.nextDirection) := by
      rw [← hitsWall_eq_false_iff]; simpa using hw
    have hon : onSnake (s0 :: rest) (movedHead s0 st.nextDirection) = true := by
      rw [onSnake_eq_true_iff, ← hsnake]
      rcases hcol with h | h
      · exact absurd hin h
      · exact h
    simp [hw, hon]

theorem update_move (random : Nat → ℚ) (fuel : Nat) (st : Engine) (s0 : Pos)
    (rest : List Pos) (hplay : st.gameState = GameState.playing)
    (hsnake : st.snake = s0 :: rest)
    (hin : inGrid st.tileCount (movedHead s0 st.nextDirection))
    (hfree : movedHead s0 st.nextDirection ∉ st.snake)
    (hfood : st.food ≠ some (movedHead s0 st.nextDirection)) :
    update random fuel st = some { commitDirection st with
      snake := movedHead s0 st.nextDirection :: st.snake.dropLast } := by
  unfold update commitDirection
  have hw : hitsWall st.tileCount (movedHead s0 st.nextDirection) = false :=
    (hitsWall_eq_false_iff _ _).2 hin
  have hon : onSnake (s0 :: rest) (movedHead s0 st.nextDirection) = false := by
    rw [onSnake_eq_false_iff, ← hsnake]; exact hfree
  simp [hplay, hsnake, hw, hon, hfood]

theorem update_eat (random : Nat → ℚ) (fuel : Nat) (st : Engine) (s0 : Pos)
    (rest : List Pos) (hplay : st.gameState = GameState.playing)
    (hsnake : st.snake = s0 :: rest)
    (hin : inGrid st.tileCount (movedHead s0 st.nextDirection))
    (hfree : movedHead s0 st.nextDirection ∉ st.snake)
    (hfood : st.food = some (movedHead s0 st.nextDirection)) :
    update random fuel st =
      (generateFood random fuel (eatState st (movedHead s0 st.nextDirection))).map
        adjustSpeed := by
  unfold update eatState createFoodParticles commitDirection
  have hw : hitsWall st.tileCount (movedHead s0 st.nextDirection) = false :=
    (hitsWall_eq_false_iff _ _).2 hin
  have hon : onSnake (s0 :: rest) (movedHead s0 st.nextDirection) = false := by
    rw [onSnake_eq_false_iff, ← hsnake]; exact hfree
  simp only [hplay, hsnake, hw, hon, hfood, ne_eq, not_true_eq_false, if_false,
    Bool.false_eq_true, if_true]
  cases generateFood random fuel _ with
  | none => rfl
  | some st4 =>
    simp only [Option.map, adjustSpeed]
    split <;> rfl

theorem update_empty (random : Nat → ℚ) (fuel : Nat) (st : Engine)
    (hplay : st.gameState = GameState.playing) (hsnake : st.snake = []) :
    update random fuel st = some (commitDirection st) := by
  simp [update, commitDirection, hplay, hsnake]

/-- The five ways a tick can end. -/
theorem update_cases (random : Nat → ℚ) (fuel : Nat) (st st' : Engine)
    (h : update random fuel st = some st') :
    (st.gameState ≠ GameState.playing ∧ st' = st) ∨
    (st.gameState = GameState.playing ∧ st.snake = [] ∧ st' = commitDirection st) ∨
    (st.gameState = GameState.playing ∧ ∃ s0 rest, st.snake = s0 :: rest ∧
      (¬ inGrid st.tileCount (movedHead s0 st.nextDirection) ∨
        movedHead s0 st.nextDirection ∈ st.snake) ∧
      st' = gameOver (commitDirection st)) ∨
    (st.gameState = GameState.playing ∧ ∃ s0 rest, st.snake = s0 :: rest ∧
      inGrid st.tileCount (movedHead s0 st.nextDirection) ∧
      movedHead s0 st.nextDirection ∉ st.snake ∧
      st.food ≠ some (movedHead s0 st.nextDirection) ∧
      st' = { commitDirection st with
        snake := movedHead s0 st.nextDirection :: st.snake.dropLast }) ∨
    (st.gameState = GameState.playing ∧ ∃ s0 rest g, st.snake = s0 :: rest ∧
      inGrid st.tileCount (movedHead s0 st.nextDirection) ∧
      movedHead s0 st.nextDirection ∉ st.snake ∧
      st.food = some (movedHead s0 st.nextDirection) ∧
      generateFood random fuel (eatState st (movedHead s0 st.nextDirection)) = some g ∧
      st' = adjustSpeed g) := by
  by_cases hplay : st.gameState = GameState.playing
  · cases hsnake : st.snake with
    | nil =>
      rw [update_empty random fuel st hplay hsnake] at h
      exact Or.inr (Or.inl ⟨hplay, rfl, (Option.some.inj h).symm⟩)
    | cons s0 rest =>
      by_cases hin : inGrid st.tileCount (movedHead s0 st.nextDirection)
      · by_cases hmem : movedHead s0 st.nextDirection ∈ st.snake
        · rw [update_collide random fuel st s0 rest hplay hsnake (Or.inr hmem)] at h
          exact Or.inr (Or.inr (Or.inl
            ⟨hplay, s0, rest, rfl, Or.inr (hsnake ▸ hmem), (Option.some.inj h).symm⟩))
        · by_cases hfood : st.food = some (movedHead s0 st.nextDirection)
          · rw [update_eat random fuel st s0 rest hplay hsnake hin hmem hfood] at h
            cases hg : generateFood random fuel (eatState st (movedHead s0 st.nextDirection)) with
            | none => rw [hg] at h; simp at h
            | some g =>
              rw [hg] at h
              simp only [Option.map, Option.some.injEq] at h
              exact Or.inr (Or.inr (Or.inr (Or.inr
                ⟨hplay, s0, rest, g, rfl, hin, hsnake ▸ hmem, hfood, hg, h.symm⟩)))
          · rw [update_move random fuel st s0 rest hplay hsnake hin hmem hfood] at h
            exact Or.inr (Or.inr (Or.inr (Or.inl
              ⟨hplay, s0, rest, rfl, hin, hsnake ▸ hmem, hfood,
                hsnake ▸ (Option.some.inj h).symm⟩)))
      · rw [update_collide random fuel st s0 rest hplay hsnake (Or.inl hin)] at h
        exact Or.inr (Or.inr (Or.inl
          ⟨hplay, s0, rest, rfl, Or.inl hin, (Option.some.inj h).symm⟩))
  · rw [update_not_playing random fuel st hplay] at h
    exact Or.inl ⟨hplay, (Option.some.inj h).symm⟩

/-! ## Frame facts about the helper operations -/

theorem clearInterval_frame (st : Engine) (h : Option Nat) :
    (clearInterval st h).tileCount = st.tileCount ∧
    (clearInterval st h).gameState = st.gameState ∧
    (clearInterval st h).snake = st.snake ∧
    (clearInterval st h).food = st.food ∧
    (clearInterval st h).direction = st.direction ∧
    (clearInterval st h).nextDirection = st.nextDirection ∧
    (clearInterval st h).score = st.score ∧
    (clearInterval st h).highScore = st.highScore ∧
    (clearInterval st h).gameSpeed = st.gameSpeed ∧
    (clearInterval st h).storage = st.storage := by
  cases h <;> simp [clearInterval]

theorem gameOver_frame (st : Engine) :
    (gameOver st).tileCount = st.tileCount ∧
    (gameOver st).gameState = GameState.gameOver ∧
    (gameOver st).snake = st.snake ∧
    (gameOver st).food = st.food ∧
    (gameOver st).direction = st.direction ∧
    (gameOver st).nextDirection = st.nextDirection ∧
    (gameOver st).score = st.score ∧
    (gameOver st).gameSpeed = st.gameSpeed := by
  unfold gameOver
  cases hl : st.gameLoop <;> simp only [clearInterval] <;> split <;> simp

theorem adjustSpeed_frame (st : Engine) :
    (adjustSpeed st).tileCount = st.tileCount ∧
    (adjustSpeed st).gameState = st.gameState ∧
    (adjustSpeed st).snake = st.snake ∧
    (adjustSpeed st).food = st.food ∧
    (adjustSpeed st).direction = st.direction ∧
    (adjustSpeed st).nextDirection = st.nextDirection ∧
    (adjustSpeed st).score = st.score ∧
    (adjustSpeed st).highScore = st.highScore ∧
    (adjustSpeed st).storage = st.storage := by
  unfold adjustSpeed
  split
  · cases hl : st.gameLoop <;> simp [clearInterval, setInterval]
  · simp

/-- What an eating tick returns, field by field. -/
theorem eat_result (random : Nat → ℚ) (fuel : Nat) (st g : Engine) (head : Pos)
    (hg : generateFood random fuel (eatState st head) = some g) :
    (adjustSpeed g).tileCount = st.tileCount ∧
    (adjustSpeed g).gameState = st.gameState ∧
    (adjustSpeed g).snake = head :: st.snake ∧
    (adjustSpeed g).direction = st.nextDirection ∧
    (adjustSpeed g).nextDirection = st.nextDirection ∧
    (adjustSpeed g).score = st.score + 1 ∧
    (adjustSpeed g).highScore = st.highScore ∧
    (adjustSpeed g).storage = st.storage ∧
    ∃ c, (adjustSpeed g).food = some c ∧ c ∉ head :: st.snake := by
  obtain ⟨k, _, hfree, hst⟩ := generateFood_some random fuel _ _ hg
  obtain ⟨h1, h2, h3, h4, h5, h6, h7, h8, h9⟩ := adjustSpeed_frame g
  rw [h1, h2, h3, h4, h5, h6, h7, h8, h9, hst]
  refine ⟨rfl, rfl, rfl, rfl, rfl, rfl, rfl, rfl, _, rfl, ?_⟩
  exact hfree

/-! ## Claims about a single tick -/

/-- C1. A tick of `update()` in state `playing` whose new head
`snake[0] + nextDirection` is outside `[0, tileCount)` on either axis, or is the
position of a snake segment, returns with `gameState = 'gameOver'` and with the snake,
the score, the food and the game speed exactly as before the tick. -/
theorem update_collision_ends_game (random : Nat → ℚ) (fuel : Nat) (st : Engine)
    (s0 : Pos) (rest : List Pos)
    (hplay : st.gameState = GameState.playing) (hsnake : st.snake = s0 :: rest)
    (hcol : ((movedHead s0 st.nextDirection).x < 0 ∨
        (st.tileCount : Int) ≤ (movedHead s0 st.nextDirection).x ∨
        (movedHead s0 st.nextDirection).y < 0 ∨
        (st.tileCount : Int) ≤ (movedHead s0 st.nextDirection).y) ∨
      movedHead s0 st.nextDirection ∈ st.snake) :
    ∃ st', update random fuel st = some st' ∧
      st'.gameState = GameState.gameOver ∧ st'.snake = st.snake ∧
      st'.score = st.score ∧ st'.food = st.food ∧ st'.gameSpeed = st.gameSpeed := by
  have hcol' : ¬ inGrid st.tileCount (movedHead s0 st.nextDirection) ∨
      movedHead s0 st.nextDirection ∈ st.snake := by
    rcases hcol with h | h
    · left
      unfold inGrid
      omega
    · exact Or.inr h
  refine ⟨_, update_collide random fuel st s0 rest hplay hsnake hcol', ?_⟩
  obtain ⟨_, h2, h3, h4, _, _, h7, h8⟩ := gameOver_frame (commitDirection st)
  exact ⟨h2, h3, h7, h4, h8⟩

/-- C1, at a concrete input: the head in column 19 of a 20 × 20 grid, heading right. -/
theorem update_collision_ends_game_witness :
    ∃ st', update zeroRandom 0 atWallEngine = some st' ∧
      st'.gameState = GameState.gameOver ∧ st'.snake = [⟨19, 10⟩, ⟨18, 10⟩, ⟨17, 10⟩] ∧
      st'.score = 0 ∧ st'.food = some ⟨3, 3⟩ ∧ st'.gameSpeed = 120 :=
  update_collision_ends_game zeroRandom 0 atWallEngine ⟨19, 10⟩ [⟨18, 10⟩, ⟨17, 10⟩]
    rfl rfl (Or.inl (Or.inr (Or.inl (by decide))))

/-- C2. A tick of `update()` in state `playing` whose new head `h` is inside the grid
and on no segment: when `h` is not the food position the tick returns with the snake
`h` followed by the old snake without its last segment, length and score unchanged;
when `h` is the food position every result of the tick has the snake `h` followed by
the whole old snake, length and score one higher, and the tick does return once the
random source offers a free cell within the fuel of `generateFood`. -/
theorem update_advances_snake (random : Nat → ℚ) (fuel : Nat) (st : Engine)
    (s0 : Pos) (rest : List Pos)
    (hplay : st.gameState = GameState.playing) (hsnake : st.snake = s0 :: rest)
    (hin : 0 ≤ (movedHead s0 st.nextDirection).x ∧
      (movedHead s0 st.nextDirection).x < (st.tileCount : Int) ∧
      0 ≤ (movedHead s0 st.nextDirection).y ∧
      (movedHead s0 st.nextDirection).y < (st.tileCount : Int))
    (hfree : movedHead s0 st.nextDirection ∉ st.snake) :
    (st.food ≠ some (movedHead s0 st.nextDirection) →
      ∃ st', update random fuel st = some st' ∧
        st'.snake = movedHead s0 st.nextDirection :: st.snake.dropLast ∧
        st'.snake.length = st.snake.length ∧ st'.score = st.score ∧
        st'.gameState = GameState.playing) ∧
    (st.food = some (movedHead s0 st.nextDirection) →
      (∀ st', update random fuel st = some st' →
        st'.snake = movedHead s0 st.nextDirection :: st.snake ∧
        st'.snake.length = st.snake.length + 1 ∧ st'.score = st.score + 1 ∧
        st'.gameState = GameState.playing) ∧
      (∀ k, k < fuel →
        randomCell random st.tileCount (st.drawn + 12 + 2 * k) ∉
          movedHead s0 st.nextDirection :: st.snake →
        ∃ st', update random fuel st = some st')) := by
  constructor
  · intro hfood
    refine ⟨_, update_move random fuel st s0 rest hplay hsnake hin hfree hfood, rfl, ?_,
      rfl, hplay⟩
    simp [hsnake]
  · intro hfood
    have hupd := update_eat random fuel st s0 rest hplay hsnake hin hfree hfood
    constructor
    · intro st' hst'
      rw [hupd] at hst'
      cases hg : generateFood random fuel (eatState st (movedHead s0 st.nextDirection)) with
      | none => rw [hg] at hst'; simp at hst'
      | some g =>
        rw [hg] at hst'
        simp only [Option.map, Option.some.injEq] at hst'
        obtain ⟨_, h2, h3, _, _, h6, _⟩ := eat_result random fuel st g _ hg
        subst hst'
        exact ⟨h3, by rw [h3]; simp, h6, by rw [h2]; exact hplay⟩
    · intro k hk hcell
      obtain ⟨g, hg⟩ := generateFood_returns random fuel
        (eatState st (movedHead s0 st.nextDirection)) k hk hcell
      exact ⟨adjustSpeed g, by rw [hupd, hg]; rfl⟩

/-- C2, at a concrete input: a snake of length 3 with the food directly ahead becomes
a snake of length 4 with score 1, the tail kept. -/
theorem update_advances_snake_witness :
    ∃ st', update zeroRandom 1 foodAheadEngine = some st' ∧
      st'.snake = [⟨11, 10⟩, ⟨10, 10⟩, ⟨9, 10⟩, ⟨8, 10⟩] ∧
      st'.snake.length = 4 ∧ st'.score = 1 := by
  have h := (update_advances_snake zeroRandom 1 foodAheadEngine ⟨10, 10⟩
    [⟨9, 10⟩, ⟨8, 10⟩] rfl rfl (by decide) (by decide)).2 rfl
  obtain ⟨st', hst'⟩ := h.2 0 (by decide)
    (by simp [randomCell, zeroRandom, foodAheadEngine, movedHead])
  obtain ⟨h1, h2, h3, _⟩ := h.1 st' hst'
  exact ⟨st', hst', h1, h2, h3⟩

/-- C4. `setDirection` called with the exact opposite of the committed direction
changes nothing, in every state: the whole engine, and so `direction` and
`nextDirection`, is what it was before the call. -/
theorem setDirection_reverse_ignored (st : Engine) :
    setDirection st (-st.direction.x) (-st.direction.y) = st ∧
    (setDirection st (-st.direction.x) (-st.direction.y)).direction = st.direction ∧
    (setDirection st (-st.direction.x) (-st.direction.y)).nextDirection =
      st.nextDirection := by
  have h : setDirection st (-st.direction.x) (-st.direction.y) = st := by
    unfold setDirection
    by_cases hp : st.gameState = GameState.playing <;> simp [hp]
  rw [h]
  exact ⟨rfl, rfl, rfl⟩

/-- What `startGame()` returns, field by field. -/
theorem startGame_result (random : Nat → ℚ) (fuel : Nat) (st st' : Engine)
    (h : startGame random fuel st = some st') :
    st'.tileCount = st.tileCount ∧
    st'.gameState = GameState.playing ∧
    st'.snake = startSnake st.tileCount ∧
    st'.direction = ⟨1, 0⟩ ∧
    st'.nextDirection = ⟨1, 0⟩ ∧
    st'.score = 0 ∧
    st'.gameSpeed = 120 ∧
    st'.highScore = st.highScore ∧
    st'.storage = st.storage ∧
    ∃ c, st'.food = some c ∧ c ∉ startSnake st.tileCount := by
  unfold startGame at h
  simp only at h
  split at h
  · simp at h
  · rename_i g hg
    obtain ⟨k, _, hfree, hst⟩ := generateFood_some random fuel _ _ hg
    simp only [Option.some.injEq] at h
    subst h
    subst hst
    exact ⟨rfl, rfl, rfl, rfl, rfl, rfl, rfl, rfl, rfl, _, rfl, hfree⟩

theorem restartGame_result (random : Nat → ℚ) (fuel : Nat) (st st' : Engine)
    (h : restartGame random fuel st = some st') :
    st'.tileCount = st.tileCount ∧
    st'.gameState = GameState.playing ∧
    st'.snake = startSnake st.tileCount ∧
    st'.direction = ⟨1, 0⟩ ∧
    st'.nextDirection = ⟨1, 0⟩ ∧
    st'.score = 0 ∧
    st'.gameSpeed = 120 ∧
    st'.highScore = st.highScore ∧
    st'.storage = st.storage ∧
    ∃ c, st'.food = some c ∧ c ∉ startSnake st.tileCount := by
  unfold restartGame at h
  have hr := startGame_result random fuel _ _ h
  obtain ⟨c1, _, _, _, _, _, _, c8, _, c10⟩ := clearInterval_frame st st.gameLoop
  rw [c1, c8, c10] at hr
  exact hr

theorem setDirection_frame (st : Engine) (x y : Int) :
    (setDirection st x y).tileCount = st.tileCount ∧
    (setDirection st x y).gameState = st.gameState ∧
    (setDirection st x y).snake = st.snake ∧
    (setDirection st x y).food = st.food ∧
    (setDirection st x y).direction = st.direction ∧
    (setDirection st x y).score = st.score ∧
    (setDirection st x y).highScore = st.highScore ∧
    (setDirection st x y).gameSpeed = st.gameSpeed ∧
    (setDirection st x y).storage = st.storage := by
  unfold setDirection
  split
  · simp
  · split <;> simp

theorem togglePause_frame (st : Engine) :
    (togglePause st).tileCount = st.tileCount ∧
    (togglePause st).snake = st.snake ∧
    (togglePause st).food = st.food ∧
    (togglePause st).direction = st.direction ∧
    (togglePause st).nextDirection = st.nextDirection ∧
    (togglePause st).score = st.score ∧
    (togglePause st).highScore = st.highScore ∧
    (togglePause st).gameSpeed = st.gameSpeed ∧
    (togglePause st).storage = st.storage := by
  unfold togglePause
  split
  · cases hl : st.gameLoop <;> simp [clearInterval]
  · split <;> simp [setInterval]

/-- C5. Whenever `generateFood()` returns, the snake is untouched and the food is a
cell on no snake segment; it does return once the random source offers a free cell
within the fuel; and the food left by an eating tick of `update()` is on no segment
of the grown snake, the head just prepended included. -/
theorem generateFood_avoids_snake (random : Nat → ℚ) (fuel : Nat) (st : Engine) :
    (∀ st', generateFood random fuel st = some st' →
      st'.snake = st.snake ∧ ∃ c, st'.food = some c ∧ c ∉ st'.snake) ∧
    (∀ k, k < fuel → randomCell random st.tileCount (st.drawn + 2 * k) ∉ st.snake →
      ∃ st', generateFood random fuel st = some st') ∧
    (∀ st', eatsFood st → update random fuel st = some st' →
      ∃ head c, st'.snake = head :: st.snake ∧ st'.food = some c ∧ c ∉ st'.snake) := by
  refine ⟨?_, ?_, ?_⟩
  · intro st' h
    obtain ⟨k, _, hfree, hst⟩ := generateFood_some random fuel st st' h
    subst hst
    exact ⟨rfl, _, rfl, hfree⟩
  · intro k hk hfree
    exact generateFood_returns random fuel st k hk hfree
  · rintro st' ⟨hplay, s0, rest, hsnake, hin, hfree, hfood⟩ hupd
    rw [update_eat random fuel st s0 rest hplay hsnake hin hfree hfood] at hupd
    cases hg : generateFood random fuel (eatState st (movedHead s0 st.nextDirection)) with
    | none => rw [hg] at hupd; simp at hupd
    | some g =>
      rw [hg] at hupd
      simp only [Option.map, Option.some.injEq] at hupd
      obtain ⟨_, _, h3, _, _, _, _, _, c, hc, hcfree⟩ := eat_result random fuel st g _ hg
      subst hupd
      exact ⟨_, c, h3, hc, by rw [h3]; exact hcfree⟩

/-- C5, at a concrete input: eating on a 20 × 20 grid with the next drawn cell
`(0, 0)` leaves the food at `(0, 0)`, off the grown snake. -/
theorem generateFood_avoids_snake_witness :
    ∃ st' head c, update zeroRandom 1 foodAheadEngine = some st' ∧
      st'.snake = head :: foodAheadEngine.snake ∧ st'.food = some c ∧ c ∉ st'.snake := by
  have hupd : ∃ st', update zeroRandom 1 foodAheadEngine = some st' := by
    simp [update, foodAheadEngine, hitsWall, movedHead, onSnake, generateFood,
      createFoodParticles, randomCell, zeroRandom]
  obtain ⟨st', hst'⟩ := hupd
  have heats : eatsFood foodAheadEngine :=
    ⟨rfl, ⟨10, 10⟩, [⟨9, 10⟩, ⟨8, 10⟩], rfl, by decide, by decide, rfl⟩
  obtain ⟨head, c, h1, h2, h3⟩ :=
    (generateFood_avoids_snake zeroRandom 1 foodAheadEngine).2.2 st' heats hst'
  exact ⟨st', head, c, hst', h1, h2, h3⟩

/-- C8. No call of `update()`, `setDirection()`, `togglePause()` or `gameOver()`
lowers the score: `update()` raises it by exactly one on a tick that eats and leaves
it unchanged on every other tick, the other three leave it unchanged; `startGame()`
and `restartGame()` set it to `0`. -/
theorem score_changes (random : Nat → ℚ) (fuel : Nat) (st : Engine) :
    (∀ st', update random fuel st = some st' →
      (eatsFood st → st'.score = st.score + 1) ∧
      (¬ eatsFood st → st'.score = st.score) ∧ st.score ≤ st'.score) ∧
    (∀ x y, (setDirection st x y).score = st.score) ∧
    (togglePause st).score = st.score ∧
    (gameOver st).score = st.score ∧
    (∀ st', startGame random fuel st = some st' → st'.score = 0) ∧
    (∀ st', restartGame random fuel st = some st' → st'.score = 0) := by
  refine ⟨?_, fun x y => (setDirection_frame st x y).2.2.2.2.2.1,
    (togglePause_frame st).2.2.2.2.2.1, (gameOver_frame st).2.2.2.2.2.2.1,
    fun st' h => (startGame_result random fuel st st' h).2.2.2.2.2.1,
    fun st' h => (restartGame_result random fuel st st' h).2.2.2.2.2.1⟩
  intro st' h
  rcases update_cases random fuel st st' h with
    ⟨hp, rfl⟩ | ⟨_, hs, rfl⟩ | ⟨_, s0, rest, hs, hcol, rfl⟩ |
    ⟨_, s0, rest, hs, hin, hfree, hfood, rfl⟩ | ⟨hp, s0, rest, g, hs, hin, hfree, hfood, hg, rfl⟩
  · exact ⟨fun he => absurd he.1 hp, fun _ => rfl, le_rfl⟩
  · refine ⟨fun he => ?_, fun _ => rfl, le_rfl⟩
    obtain ⟨_, t0, trest, ht, _⟩ := he
    rw [hs] at ht
    cases ht
  · have hsc : (gameOver (commitDirection st)).score = st.score :=
      (gameOver_frame (commitDirection st)).2.2.2.2.2.2.1
    refine ⟨fun he => ?_, fun _ => hsc, le_of_eq hsc.symm⟩
    obtain ⟨_, t0, trest, ht, tin, tfree, _⟩ := he
    rw [hs] at ht
    cases ht
    rcases hcol with hc | hc
    · exact absurd tin hc
    · exact absurd hc tfree
  · refine ⟨fun he => ?_, fun _ => rfl, le_rfl⟩
    obtain ⟨_, t0, trest, ht, _, _, tfood⟩ := he
    rw [hs] at ht
    cases ht
    exact absurd tfood hfood
  · have hsc := (eat_result random fuel st g _ hg).2.2.2.2.2.1
    refine ⟨fun _ => hsc, fun hne => ?_, by omega⟩
    exact absurd ⟨hp, s0, rest, hs, hin, hfree, hfood⟩ hne

/-- C8, at a concrete input: the eating tick of the sample game takes the score
from `0` to `1`. -/
theorem score_changes_witness :
    ∃ st', update zeroRandom 1 foodAheadEngine = some st' ∧ st'.score = 1 := by
  have hupd : ∃ st', update zeroRandom 1 foodAheadEngine = some st' := by
    simp [update, foodAheadEngine, hitsWall, movedHead, onSnake, generateFood,
      createFoodParticles, randomCell, zeroRandom]
  obtain ⟨st', hst'⟩ := hupd
  have heats : eatsFood foodAheadEngine :=
    ⟨rfl, ⟨10, 10⟩, [⟨9, 10⟩, ⟨8, 10⟩], rfl, by decide, by decide, rfl⟩
  exact ⟨st', hst', ((score_changes zeroRandom 1 foodAheadEngine).1 st' hst').1 heats⟩

/-! ## Invariants of reachable states -/

theorem startedEngine_eq :
    startGame zeroRandom 1 (newSnakeGame none 20) = some startedEngine := by
  simp [startGame, newSnakeGame, generateFood, randomCell, zeroRandom, onSnake,
    setInterval, startedEngine, foodAheadEngine]
  decide

/-- What a tick does to the speed: nothing, or five less from above 60. -/
theorem adjustSpeed_gameSpeed (st : Engine) :
    (adjustSpeed st).gameSpeed = st.gameSpeed ∨
    (60 < st.gameSpeed ∧ (adjustSpeed st).gameSpeed = st.gameSpeed - 5) := by
  unfold adjustSpeed
  split
  · rename_i h
    right
    refine ⟨h.2, ?_⟩
    cases hl : st.gameLoop <;> simp [clearInterval, setInterval]
  · left; rfl

theorem generateFood_gameSpeed (random : Nat → ℚ) (fuel : Nat) (st g : Engine)
    (hg : generateFood random fuel st = some g) : g.gameSpeed = st.gameSpeed := by
  obtain ⟨k, _, _, hst⟩ := generateFood_some random fuel st g hg
  rw [hst]

theorem update_gameSpeed (random : Nat → ℚ) (fuel : Nat) (st st' : Engine)
    (h : update random fuel st = some st') :
    st'.gameSpeed = st.gameSpeed ∨
    (60 < st.gameSpeed ∧ st'.gameSpeed = st.gameSpeed - 5) := by
  rcases update_cases random fuel st st' h with
    ⟨_, rfl⟩ | ⟨_, _, rfl⟩ | ⟨_, _, _, _, _, rfl⟩ |
    ⟨_, _, _, _, _, _, _, rfl⟩ | ⟨_, s0, _, g, _, _, _, _, hg, rfl⟩
  · exact Or.inl rfl
  · exact Or.inl rfl
  · exact Or.inl (gameOver_frame (commitDirection st)).2.2.2.2.2.2.2
  · exact Or.inl rfl
  · have hgs : g.gameSpeed = st.gameSpeed := by
      rw [generateFood_gameSpeed random fuel _ g hg]; rfl
    rw [← hgs]
    exact adjustSpeed_gameSpeed g

/-- The speed of a reachable state is a multiple of five between 60 and 120. -/
theorem reachable_gameSpeed (random : Nat → ℚ) (st : Engine)
    (hr : Reachable random st) :
    60 ≤ st.gameSpeed ∧ st.gameSpeed ≤ 120 ∧ st.gameSpeed % 5 = 0 := by
  induction hr with
  | start fuel st0 st h =>
    have := (startGame_result random fuel st0 st h).2.2.2.2.2.2.1
    rw [this]; decide
  | tick fuel st st' _ h ih =>
    rcases update_gameSpeed random fuel st st' h with he | ⟨hlt, he⟩
    · rw [he]; exact ih
    · rw [he]; omega
  | turn st d _ _ ih =>
    rw [(setDirection_frame st d.x d.y).2.2.2.2.2.2.2.1]; exact ih
  | pause st _ ih =>
    rw [(togglePause_frame st).2.2.2.2.2.2.2.1]; exact ih
  | restart fuel st st' _ h _ =>
    have := (restartGame_result random fuel st st' h).2.2.2.2.2.2.1
    rw [this]; decide

/-- C7. In every state reachable after `startGame()` (through ticks of `update()`, and
also through direction commands, pause toggles and restarts) the tick interval
`gameSpeed` is at least the minimum 60 and at most the initial 120. -/
theorem gameSpeed_floor (random : Nat → ℚ) (st : Engine) (hr : Reachable random st) :
    60 ≤ st.gameSpeed ∧ st.gameSpeed ≤ 120 :=
  ⟨(reachable_gameSpeed random st hr).1, (reachable_gameSpeed random st hr).2.1⟩

/-- C7, at a concrete input: the state right after `startGame()` on a fresh game. -/
theorem gameSpeed_floor_witness :
    Reachable zeroRandom startedEngine ∧
      60 ≤ startedEngine.gameSpeed ∧ startedEngine.gameSpeed ≤ 120 :=
  ⟨Reachable.start 1 (newSnakeGame none 20) startedEngine startedEngine_eq,
    gameSpeed_floor zeroRandom startedEngine
      (Reachable.start 1 (newSnakeGame none 20) startedEngine startedEngine_eq)⟩

theorem opposite_ne_of_unit (d : Pos) (h : isUnitDirection d) : d ≠ opposite d := by
  rcases h with rfl | rfl | rfl | rfl <;> decide

theorem update_direction (random : Nat → ℚ) (fuel : Nat) (st st' : Engine)
    (h : update random fuel st = some st') :
    (st.gameState ≠ GameState.playing ∧ st' = st) ∨
    (st.gameState = GameState.playing ∧ st'.direction = st.nextDirection ∧
      st'.nextDirection = st.nextDirection) := by
  rcases update_cases random fuel st st' h with
    ⟨hp, rfl⟩ | ⟨hp, _, rfl⟩ | ⟨hp, _, _, _, _, rfl⟩ |
    ⟨hp, _, _, _, _, _, _, rfl⟩ | ⟨hp, s0, _, g, _, _, _, _, hg, rfl⟩
  · exact Or.inl ⟨hp, rfl⟩
  · exact Or.inr ⟨hp, rfl, rfl⟩
  · exact Or.inr ⟨hp, (gameOver_frame (commitDirection st)).2.2.2.2.1,
      (gameOver_frame (commitDirection st)).2.2.2.2.2.1⟩
  · exact Or.inr ⟨hp, rfl, rfl⟩
  · have hr := eat_result random fuel st g _ hg
    exact Or.inr ⟨hp, hr.2.2.2.1, hr.2.2.2.2.1⟩

/-- In a reachable state both direction slots hold unit vectors and the pending
direction is not the reverse of the committed one. -/
theorem reachable_directions (random : Nat → ℚ) (st : Engine)
    (hr : Reachable random st) :
    isUnitDirection st.direction ∧ isUnitDirection st.nextDirection ∧
      st.nextDirection ≠ opposite st.direction := by
  induction hr with
  | start fuel st0 st h =>
    obtain ⟨_, _, _, h4, h5, _⟩ := startGame_result random fuel st0 st h
    rw [h4, h5]; decide
  | tick fuel st st' _ h ih =>
    rcases update_direction random fuel st st' h with ⟨_, rfl⟩ | ⟨_, hd, hn⟩
    · exact ih
    · rw [hd, hn]
      exact ⟨ih.2.1, ih.2.1, opposite_ne_of_unit _ ih.2.1⟩
  | turn st d _ hd ih =>
    unfold setDirection
    split
    · exact ih
    · split
      · exact ih
      · rename_i hne
        refine ⟨ih.1, hd, ?_⟩
        intro he
        apply hne
        simp only [opposite, Pos.mk.injEq] at he
        constructor <;> omega
  | pause st _ ih =>
    obtain ⟨_, _, _, h4, h5, _⟩ := togglePause_frame st
    rw [h4, h5]; exact ih
  | restart fuel st st' _ h _ =>
    obtain ⟨_, _, _, h4, h5, _⟩ := restartGame_result random fuel st st' h
    rw [h4, h5]; decide

/-- Direction commands never touch the committed direction, and never leave its
reverse pending. -/
theorem setDirections_directions (cmds : List Pos) :
    ∀ st : Engine, st.nextDirection ≠ opposite st.direction →
      (setDirections st cmds).direction = st.direction ∧
      (setDirections st cmds).gameState = st.gameState ∧
      (setDirections st cmds).nextDirection ≠ opposite st.direction := by
  induction cmds with
  | nil => intro st h; exact ⟨rfl, rfl, h⟩
  | cons d ds ih =>
    intro st h
    have hstep : (setDirection st d.x d.y).nextDirection ≠
        opposite (setDirection st d.x d.y).direction := by
      unfold setDirection
      split
      · exact h
      · split
        · exact h
        · rename_i hne
          intro he
          apply hne
          simp only [opposite, Pos.mk.injEq] at he
          constructor <;> omega
    obtain ⟨h1, h2, h3⟩ := ih (setDirection st d.x d.y) hstep
    have hd : (setDirection st d.x d.y).direction = st.direction :=
      (setDirection_frame st d.x d.y).2.2.2.2.1
    have hg : (setDirection st d.x d.y).gameState = st.gameState :=
      (setDirection_frame st d.x d.y).2.1
    rw [hd] at h1 h3
    rw [hg] at h2
    exact ⟨h1, h2, h3⟩

/-- C3. Take any state `st` reachable after `startGame()`; its `direction` is the
direction committed by the last tick (or by `startGame()` itself). After any finite
sequence of `setDirection` calls, the next tick of `update()` never leaves the exact
negation of that direction committed; when the game is playing the tick commits the
pending direction, which the calls have kept different from that negation. -/
theorem committed_direction_never_reversed (random : Nat → ℚ) (fuel : Nat)
    (st st' : Engine) (cmds : List Pos) (hr : Reachable random st)
    (hcmds : ∀ d ∈ cmds, isUnitDirection d)
    (hupd : update random fuel (setDirections st cmds) = some st') :
    st'.direction ≠ opposite st.direction ∧
    (setDirections st cmds).direction = st.direction ∧
    (st.gameState = GameState.playing →
      st'.direction = (setDirections st cmds).nextDirection) := by
  have _ := hcmds
  obtain ⟨hu, _, hne⟩ := reachable_directions random st hr
  obtain ⟨h1, h2, h3⟩ := setDirections_directions cmds st hne
  rcases update_direction random fuel _ st' hupd with ⟨hnp, rfl⟩ | ⟨hp, hd, _⟩
  · refine ⟨?_, h1, fun hplay => ?_⟩
    · rw [h1]; exact opposite_ne_of_unit _ hu
    · rw [h2] at hnp; exact absurd hplay hnp
  · exact ⟨by rw [hd]; exact h3, h1, fun _ => hd⟩

/-- C3, at a concrete input: right after `startGame()` the commands left, up, left
are issued; the next tick commits up, not left. -/
theorem committed_direction_never_reversed_witness :
    ∃ st', update zeroRandom 1
        (setDirections startedEngine [⟨-1, 0⟩, ⟨0, -1⟩, ⟨-1, 0⟩]) = some st' ∧
      st'.direction = ⟨0, -1⟩ ∧ st'.direction ≠ opposite startedEngine.direction := by
  have hupd : ∃ st', update zeroRandom 1
      (setDirections startedEngine [⟨-1, 0⟩, ⟨0, -1⟩, ⟨-1, 0⟩]) = some st' ∧
      st'.direction = ⟨0, -1⟩ := by
    simp [update, setDirections, setDirection, startedEngine, foodAheadEngine, hitsWall,
      movedHead, onSnake]
  obtain ⟨st', hst', hdir⟩ := hupd
  exact ⟨st', hst', hdir,
    (committed_direction_never_reversed zeroRandom 1 startedEngine st'
      [⟨-1, 0⟩, ⟨0, -1⟩, ⟨-1, 0⟩]
      (Reachable.start 1 (newSnakeGame none 20) startedEngine startedEngine_eq)
      (by decide) hst').1⟩

/-! ## The straight run to the right wall -/

theorem startGame_onRightRun (random : Nat → ℚ) (fuel : Nat) (st0 st : Engine)
    (h20 : st0.tileCount = 20) (h : startGame random fuel st0 = some st) :
    onRightRun 0 st := by
  obtain ⟨h1, h2, h3, _, h5, _⟩ := startGame_result random fuel st0 st h
  refine ⟨by rw [h1, h20], h2, h5, [⟨9, 10⟩, ⟨8, 10⟩], ?_, ?_⟩
  · rw [h3, h20]; rfl
  · intro p hp
    simp only [List.mem_cons, List.mem_singleton, List.not_mem_nil, or_false] at hp
    rcases hp with rfl | rfl <;> decide

theorem onRightRun_head_free (n : Nat) (s : Engine) (rest : List Pos)
    (hs : s.snake = ⟨10 + (n : Int), 10⟩ :: rest)
    (hrest : ∀ p ∈ rest, p.y = 10 ∧ p.x < 10 + (n : Int)) :
    (⟨10 + (n : Int) + 1, 10 + 0⟩ : Pos) ∉ s.snake := by
  rw [hs]
  intro hmem
  simp only [List.mem_cons, Pos.mk.injEq] at hmem
  rcases hmem with ⟨hx, _⟩ | hmem
  · omega
  · have := (hrest _ hmem).2
    simp only at this
    omega

/-- One tick of the run before the wall: whatever it returns is the next state of
the run. -/
theorem onRightRun_step (random : Nat → ℚ) (fuel : Nat) (n : Nat) (s s' : Engine)
    (hn : n < 9) (hrun : onRightRun n s) (h : update random fuel s = some s') :
    onRightRun (n + 1) s' := by
  obtain ⟨h20, hplay, hdir, rest, hs, hrest⟩ := hrun
  have hhead : movedHead ⟨10 + (n : Int), 10⟩ s.nextDirection =
      ⟨10 + (n : Int) + 1, 10 + 0⟩ := by
    rw [hdir]; rfl
  have hfree := onRightRun_head_free n s rest hs hrest
  have hin : inGrid s.tileCount (⟨10 + (n : Int) + 1, 10 + 0⟩ : Pos) := by
    rw [h20]; unfold inGrid; simp only; omega
  have hold : ∀ p ∈ s.snake, p.y = 10 ∧ p.x < 10 + ((n + 1 : Nat) : Int) := by
    intro p hp
    rw [hs] at hp
    simp only [List.mem_cons] at hp
    rcases hp with rfl | hp
    · simp only [true_and]; push_cast; omega
    · have := hrest p hp
      refine ⟨this.1, ?_⟩
      push_cast; omega
  have hcast : (⟨10 + (n : Int) + 1, 10 + 0⟩ : Pos) = ⟨10 + ((n + 1 : Nat) : Int), 10⟩ := by
    simp only [Pos.mk.injEq]; constructor
    · push_cast; ring
    · rfl
  rcases update_cases random fuel s s' h with
    ⟨hp, _⟩ | ⟨_, he, _⟩ | ⟨_, t0, trest, ht, hcol, _⟩ |
    ⟨_, t0, trest, ht, _, _, _, rfl⟩ | ⟨_, t0, trest, g, ht, _, _, _, hg, rfl⟩
  · exact absurd hplay hp
  · rw [hs] at he; cases he
  · rw [hs] at ht; cases ht
    rw [hhead] at hcol
    rcases hcol with hc | hc
    · exact absurd hin hc
    · exact absurd hc hfree
  · rw [hs] at ht; cases ht
    rw [hhead, hcast]
    refine ⟨h20, hplay, hdir, s.snake.dropLast, rfl, ?_⟩
    intro p hp
    exact hold p (List.dropLast_subset _ hp)
  · rw [hs] at ht; cases ht
    rw [hhead, hcast] at hg
    obtain ⟨e1, e2, e3, _, e5, _⟩ := eat_result random fuel s g _ hg
    exact ⟨by rw [e1, h20], by rw [e2, hplay], by rw [e5, hdir], s.snake, e3, hold⟩

/-- The tick at the wall: it always returns, with the game over. -/
theorem onRightRun_wall (random : Nat → ℚ) (fuel : Nat) (s : Engine)
    (hrun : onRightRun 9 s) :
    ∃ s', update random fuel s = some s' ∧ s'.gameState = GameState.gameOver := by
  obtain ⟨h20, hplay, hdir, rest, hs, _⟩ := hrun
  refine ⟨_, update_collide random fuel s _ rest hplay hs (Or.inl ?_),
    (gameOver_frame (commitDirection s)).2.1⟩
  rw [hdir, h20]
  unfold inGrid movedHead
  simp only [Nat.cast_ofNat]
  omega

/-- A tick of the run returns when the random source offers a cell outside row 10
within the fuel. -/
theorem onRightRun_returns (random : Nat → ℚ) (fuel : Nat) (n : Nat) (s : Engine)
    (hn : n < 9) (hrun : onRightRun n s)
    (hsrc : ∀ i, ∃ k, k < fuel ∧ (randomCell random 20 (i + 2 * k)).y ≠ 10) :
    ∃ s', update random fuel s = some s' := by
  obtain ⟨h20, hplay, hdir, rest, hs, hrest⟩ := hrun
  have hhead : movedHead ⟨10 + (n : Int), 10⟩ s.nextDirection =
      ⟨10 + (n : Int) + 1, 10 + 0⟩ := by
    rw [hdir]; rfl
  have hfree := onRightRun_head_free n s rest hs hrest
  have hin : inGrid s.tileCount (⟨10 + (n : Int) + 1, 10 + 0⟩ : Pos) := by
    rw [h20]; unfold inGrid; simp only; omega
  rw [← hhead] at hfree hin
  by_cases hfood : s.food = some (movedHead ⟨10 + (n : Int), 10⟩ s.nextDirection)
  · rw [update_eat random fuel s _ rest hplay hs hin hfree hfood]
    obtain ⟨k, hk, hy⟩ := hsrc (s.drawn + 12)
    have hcell : randomCell random
        (eatState s (movedHead ⟨10 + (n : Int), 10⟩ s.nextDirection)).tileCount
        ((eatState s (movedHead ⟨10 + (n : Int), 10⟩ s.nextDirection)).drawn + 2 * k) ∉
        (eatState s (movedHead ⟨10 + (n : Int), 10⟩ s.nextDirection)).snake := by
      show randomCell random s.tileCount (s.drawn + 12 + 2 * k) ∉
        movedHead ⟨10 + (n : Int), 10⟩ s.nextDirection :: s.snake
      rw [h20, hhead, hs]
      intro hmem
      simp only [List.mem_cons] at hmem
      rcases hmem with he | he | he
      · rw [he] at hy; exact hy rfl
      · rw [he] at hy; exact hy rfl
      · exact hy (hrest _ he).1
    obtain ⟨g, hg⟩ := generateFood_returns random fuel _ k hk hcell
    exact ⟨adjustSpeed g, by rw [hg]; rfl⟩
  · exact ⟨_, update_move random fuel s _ rest hplay hs hin hfree hfood⟩

theorem ticks_onRightRun (random : Nat → ℚ) (fuel : Nat) (st : Engine)
    (hrun : onRightRun 0 st) :
    ∀ n s, n ≤ 9 → ticks random fuel n st = some s → onRightRun n s := by
  intro n
  induction n with
  | zero =>
    intro s _ h
    simp only [ticks, Option.some.injEq] at h
    exact h ▸ hrun
  | succ m ih =>
    intro s hm h
    simp only [ticks] at h
    cases hprev : ticks random fuel m st with
    | none => rw [hprev] at h; simp at h
    | some t =>
      rw [hprev] at h
      exact onRightRun_step random fuel m t s (by omega) (ih t (by omega) hprev) h

theorem ticks_returns (random : Nat → ℚ) (fuel : Nat) (st : Engine)
    (hrun : onRightRun 0 st)
    (hsrc : ∀ i, ∃ k, k < fuel ∧ (randomCell random 20 (i + 2 * k)).y ≠ 10) :
    ∀ n, n ≤ 9 → ∃ s, ticks random fuel n st = some s := by
  intro n
  induction n with
  | zero => intro _; exact ⟨st, rfl⟩
  | succ m ih =>
    intro hm
    obtain ⟨t, ht⟩ := ih (by omega)
    obtain ⟨s, hs⟩ := onRightRun_returns random fuel m t (by omega)
      (ticks_onRightRun random fuel st hrun m t (by omega) ht) hsrc
    exact ⟨s, by simp only [ticks, ht]; exact hs⟩

/-- After the wall tick the game stays over: further ticks change nothing. -/
theorem ticks_after_gameOver (random : Nat → ℚ) (fuel : Nat) (st s : Engine) (n : Nat)
    (h : ticks random fuel n st = some s) (hover : s.gameState = GameState.gameOver) :
    ∀ m, ticks random fuel (n + m) st = some s := by
  intro m
  induction m with
  | zero => exact h
  | succ k ih =>
    show ticks random fuel (n + k + 1) st = some s
    simp only [ticks, ih]
    exact update_not_playing random fuel s (by rw [hover]; decide)

/-- The whole run, from `startGame()` on a 20 × 20 grid. -/
theorem right_run (random : Nat → ℚ) (fuel : Nat) (st0 st : Engine)
    (h20 : st0.tileCount = 20) (h : startGame random fuel st0 = some st) :
    (∀ n s, n ≤ 9 → ticks random fuel n st = some s → s.gameState = GameState.playing) ∧
    (∀ s, ticks random fuel 9 st = some s →
      ∃ s', ticks random fuel 10 st = some s' ∧ s'.gameState = GameState.gameOver) := by
  have hrun := startGame_onRightRun random fuel st0 st h20 h
  constructor
  · intro n s hn hs
    exact (ticks_onRightRun random fuel st hrun n s hn hs).2.1
  · intro s hs
    obtain ⟨s', hs', hover⟩ := onRightRun_wall random fuel s
      (ticks_onRightRun random fuel st hrun 9 s le_rfl hs)
    exact ⟨s', by simp only [ticks] at hs ⊢; rw [hs]; exact hs', hover⟩

theorem startGame_returns_off_row (random : Nat → ℚ) (fuel : Nat) (st0 : Engine)
    (h20 : st0.tileCount = 20)
    (hsrc : ∀ i, ∃ k, k < fuel ∧ (randomCell random 20 (i + 2 * k)).y ≠ 10) :
    ∃ st, startGame random fuel st0 = some st := by
  obtain ⟨k, hk, hy⟩ := hsrc st0.drawn
  unfold startGame
  simp only
  have hret := generateFood_returns random fuel
    { st0 with gameState := GameState.playing, score := 0, gameSpeed := 120,
               snake := startSnake st0.tileCount, direction := ⟨1, 0⟩,
               nextDirection := ⟨1, 0⟩ } k hk (by
      show randomCell random st0.tileCount (st0.drawn + 2 * k) ∉ startSnake st0.tileCount
      rw [h20]
      intro hmem
      simp only [startSnake, List.mem_cons, List.mem_singleton, List.not_mem_nil,
        or_false] at hmem
      rcases hmem with he | he | he <;> (rw [he] at hy; exact hy rfl))
  obtain ⟨g, hg⟩ := hret
  simp only [startSnake] at hg
  rw [hg]
  exact ⟨_, rfl⟩

theorem zeroRandom_off_row : ∀ i, ∃ k, k < 1 ∧ (randomCell zeroRandom 20 (i + 2 * k)).y ≠ 10 := by
  intro i
  exact ⟨0, by decide, by simp [randomCell, zeroRandom]⟩

/-- C9, as amended. On a 20 × 20 grid `startGame()` places the three-segment snake
`(10,10), (9,10), (8,10)` heading right; with no direction command, whatever the food
placements, the game is still playing after each of the first nine ticks that return,
and the tenth tick always returns with `gameState = 'gameOver'`; all of these calls
do return when the random source offers a cell outside row 10 within the fuel. -/
theorem right_wall_on_tenth_tick (random : Nat → ℚ) (fuel : Nat) (st0 : Engine)
    (h20 : st0.tileCount = 20) :
    (∀ st, startGame random fuel st0 = some st →
      st.snake = [⟨10, 10⟩, ⟨9, 10⟩, ⟨8, 10⟩] ∧ st.direction = ⟨1, 0⟩ ∧
      (∀ n s, n ≤ 9 → ticks random fuel n st = some s →
        s.gameState = GameState.playing) ∧
      (∀ s, ticks random fuel 9 st = some s →
        ∃ s', ticks random fuel 10 st = some s' ∧ s'.gameState = GameState.gameOver)) ∧
    ((∀ i, ∃ k, k < fuel ∧ (randomCell random 20 (i + 2 * k)).y ≠ 10) →
      ∃ st s, startGame random fuel st0 = some st ∧
        ticks random fuel 10 st = some s ∧ s.gameState = GameState.gameOver) := by
  constructor
  · intro st h
    obtain ⟨_, _, h3, h4, _⟩ := startGame_result random fuel st0 st h
    refine ⟨by rw [h3, h20]; rfl, h4, ?_⟩
    exact right_run random fuel st0 st h20 h
  · intro hsrc
    obtain ⟨st, hst⟩ := startGame_returns_off_row random fuel st0 h20 hsrc
    obtain ⟨s9, hs9⟩ := ticks_returns random fuel st
      (startGame_onRightRun random fuel st0 st h20 hst) hsrc 9 le_rfl
    obtain ⟨s, hs, hover⟩ := (right_run random fuel st0 st h20 hst).2 s9 hs9
    exact ⟨st, s, hst, hs, hover⟩

/-- C9, at a concrete input: a fresh 20 × 20 game whose random values are all `0`. -/
theorem right_wall_on_tenth_tick_witness :
    ∃ st s, startGame zeroRandom 1 (newSnakeGame none 20) = some st ∧
      ticks zeroRandom 1 10 st = some s ∧ s.gameState = GameState.gameOver :=
  (right_wall_on_tenth_tick zeroRandom 1 (newSnakeGame none 20) rfl).2 zeroRandom_off_row

/-- C9, the claim as written fails: on a fresh 20 × 20 game the tenth tick, not the
seventeenth, ends the game; after sixteen ticks the game has long been over. -/
theorem right_wall_seventeenth_tick_counterexample :
    startGame zeroRandom 1 (newSnakeGame none 20) = some startedEngine ∧
    ∃ s, ticks zeroRandom 1 10 startedEngine = some s ∧
      s.gameState = GameState.gameOver ∧
      ticks zeroRandom 1 16 startedEngine = some s ∧
      s.gameState ≠ GameState.playing := by
  refine ⟨startedEngine_eq, ?_⟩
  have hrun := startGame_onRightRun zeroRandom 1 _ _ rfl startedEngine_eq
  obtain ⟨s9, hs9⟩ := ticks_returns zeroRandom 1 startedEngine hrun zeroRandom_off_row 9 le_rfl
  obtain ⟨s, hs, hover⟩ := (right_run zeroRandom 1 _ _ rfl startedEngine_eq).2 s9 hs9
  exact ⟨s, hs, hover, ticks_after_gameOver zeroRandom 1 startedEngine s 10 hs hover 6,
    by rw [hover]; decide⟩

/-! ## Pause and resume -/

theorem runCalls_paused (random : Nat → ℚ) (fuel : Nat) (p : Engine)
    (hp : p.gameState = GameState.paused) :
    ∀ calls, runCalls random fuel calls p = some p := by
  intro calls
  induction calls with
  | nil => rfl
  | cons c cs ih =>
    cases c with
    | update =>
      have hu : update random fuel p = some p :=
        update_not_playing random fuel p (by rw [hp]; decide)
      simp only [runCalls, hu]
      exact ih
    | setDirection x y =>
      have hs : setDirection p x y = p := by
        unfold setDirection
        simp [hp]
      simp only [runCalls, hs]
      exact ih

theorem togglePause_gameState (st : Engine) :
    (st.gameState = GameState.playing → (togglePause st).gameState = GameState.paused) ∧
    (st.gameState = GameState.paused → (togglePause st).gameState = GameState.playing) := by
  constructor
  · intro h
    unfold togglePause
    simp only [h, if_true]
    exact (clearInterval_frame _ _).2.1
  · intro h
    unfold togglePause
    simp [h, setInterval]

/-- C10. From a playing state, `togglePause()` gives state `'paused'`; there `update()`
changes nothing, and any sequence of `update()` and `setDirection()` calls returns
the paused engine unchanged; a second `togglePause()` then gives state `'playing'`
with the snake, both direction slots, the food, the score and the game speed exactly
as at the moment of pausing. -/
theorem pause_resume_preserves_session (random : Nat → ℚ) (fuel : Nat) (st : Engine)
    (calls : List Call) (hplay : st.gameState = GameState.playing) :
    (togglePause st).gameState = GameState.paused ∧
    update random fuel (togglePause st) = some (togglePause st) ∧
    ∃ p, runCalls random fuel calls (togglePause st) = some p ∧ p = togglePause st ∧
      (togglePause p).gameState = GameState.playing ∧
      (togglePause p).snake = st.snake ∧
      (togglePause p).direction = st.direction ∧
      (togglePause p).nextDirection = st.nextDirection ∧
      (togglePause p).food = st.food ∧
      (togglePause p).score = st.score ∧
      (togglePause p).gameSpeed = st.gameSpeed := by
  have hp : (togglePause st).gameState = GameState.paused :=
    (togglePause_gameState st).1 hplay
  refine ⟨hp, update_not_playing random fuel _ (by rw [hp]; decide), togglePause st,
    runCalls_paused random fuel _ hp calls, rfl, (togglePause_gameState _).2 hp, ?_⟩
  obtain ⟨_, a2, a3, a4, a5, a6, _, a8, _⟩ := togglePause_frame st
  obtain ⟨_, b2, b3, b4, b5, b6, _, b8, _⟩ := togglePause_frame (togglePause st)
  exact ⟨b2.trans a2, b4.trans a4, b5.trans a5, b3.trans a3, b6.trans a6, b8.trans a8⟩

/-- C10, at a concrete input: the sample game is paused, receives a tick, a turn and
another tick, and is resumed. -/
theorem pause_resume_preserves_session_witness :
    ∃ p, runCalls zeroRandom 1 [Call.update, Call.setDirection 0 (-1), Call.update]
        (togglePause foodAheadEngine) = some p ∧
      (togglePause p).gameState = GameState.playing ∧
      (togglePause p).snake = [⟨10, 10⟩, ⟨9, 10⟩, ⟨8, 10⟩] ∧
      (togglePause p).direction = ⟨1, 0⟩ ∧
      (togglePause p).nextDirection = ⟨1, 0⟩ ∧
      (togglePause p).food = some ⟨11, 10⟩ ∧
      (togglePause p).score = 0 ∧
      (togglePause p).gameSpeed = 120 := by
  obtain ⟨_, _, p, h1, _, h3⟩ := pause_resume_preserves_session zeroRandom 1
    foodAheadEngine [Call.update, Call.setDirection 0 (-1), Call.update] rfl
  exact ⟨p, h1, h3⟩

/-! ## Decimal text of a number, read back by `parseInt` -/

theorem digitsValue_append (L : List Nat) (d : Nat) :
    digitsValue 10 (L ++ [d]) = digitsValue 10 L * 10 + d := by
  simp [digitsValue, List.foldl_append]

/-- The digits `Nat.repr` prints, as numbers: nonempty, each below ten, with the
printed number as their value. -/
theorem toDigitsCore_digits :
    ∀ (fuel n : Nat) (ds : List Char), n < fuel →
      ∃ L : List Nat, L ≠ [] ∧ (∀ d ∈ L, d < 10) ∧ digitsValue 10 L = n ∧
        Nat.toDigitsCore 10 fuel n ds = L.map Nat.digitChar ++ ds := by
  intro fuel
  induction fuel with
  | zero => intro n ds h; omega
  | succ f ih =>
    intro n ds h
    simp only [Nat.toDigitsCore]
    by_cases hz : n / 10 = 0
    · refine ⟨[n % 10], by simp, ?_, ?_, ?_⟩
      · intro d hd
        simp only [List.mem_singleton] at hd
        omega
      · simp only [digitsValue, List.foldl_cons, List.foldl_nil]
        omega
      · simp [hz]
    · obtain ⟨L, _, hlt, hval, heq⟩ := ih (n / 10) (Nat.digitChar (n % 10) :: ds) (by omega)
      refine ⟨L ++ [n % 10], by simp, ?_, ?_, ?_⟩
      · intro d hd
        simp only [List.mem_append, List.mem_singleton] at hd
        rcases hd with hd | hd
        · exact hlt d hd
        · omega
      · rw [digitsValue_append, hval]
        omega
      · simp [hz, heq]

theorem digitValue_digitChar (d : Nat) (h : d < 10) :
    digitValue (Nat.digitChar d) = some d := by
  interval_cases d <;> rfl

theorem takeDigits_digitChars (L : List Nat) (h : ∀ d ∈ L, d < 10) :
    takeDigits 10 (L.map Nat.digitChar) = L := by
  induction L with
  | nil => rfl
  | cons d ds ih =>
    have hd : d < 10 := h d (List.mem_cons_self _ _)
    simp only [List.map_cons, takeDigits, digitValue_digitChar d hd, hd, if_true]
    rw [ih (fun e he => h e (List.mem_cons_of_mem _ he))]

theorem digitChars_unsigned (d : Nat) (ds : List Nat) (h : d < 10) :
    (List.map Nat.digitChar (d :: ds)).dropWhile isStrWhiteSpaceChar =
        List.map Nat.digitChar (d :: ds) ∧
      splitSign (List.map Nat.digitChar (d :: ds)) =
        (false, List.map Nat.digitChar (d :: ds)) := by
  interval_cases d <;> exact ⟨rfl, rfl⟩

theorem digitChars_decimal (d : Nat) (ds : List Nat) (h : ∀ e ∈ d :: ds, e < 10) :
    splitRadix (List.map Nat.digitChar (d :: ds)) =
      (10, List.map Nat.digitChar (d :: ds)) := by
  have hd : d < 10 := h d (List.mem_cons_self _ _)
  cases ds with
  | nil => interval_cases d <;> rfl
  | cons e es =>
    have he : e < 10 := h e (List.mem_cons_of_mem _ (List.mem_cons_self _ _))
    interval_cases d <;> interval_cases e <;> rfl

/-- The digits of a decimal text are read back as the number they print. -/
theorem parse_digitChars (L : List Nat) (hne : L ≠ []) (h : ∀ d ∈ L, d < 10) :
    splitRadix (L.map Nat.digitChar) = (10, L.map Nat.digitChar) ∧
      takeDigits 10 (L.map Nat.digitChar) = L := by
  cases L with
  | nil => exact absurd rfl hne
  | cons d ds => exact ⟨digitChars_decimal d ds h, takeDigits_digitChars _ h⟩

theorem parseIntMath_repr (n : Nat) : parseIntMath (Nat.repr n) = some (n : Int) := by
  obtain ⟨L, hne, hlt, hval, heq⟩ := toDigitsCore_digits (n + 1) n [] (by omega)
  have hlist : (Nat.repr n).toList = L.map Nat.digitChar := by
    simp [Nat.repr, Nat.toDigits, heq, List.asString]
  obtain ⟨hr, hd⟩ := parse_digitChars L hne hlt
  cases L with
  | nil => exact absurd rfl hne
  | cons d ds =>
    obtain ⟨hw, hs⟩ := digitChars_unsigned d ds (hlt d (List.mem_cons_self _ _))
    unfold parseIntMath
    simp only [hlist, hw, hs, hr, hd, hval]
    simp

theorem parseIntMath_neg_repr (n : Nat) :
    parseIntMath ("-" ++ Nat.repr (n + 1)) = some (Int.negSucc n) := by
  obtain ⟨L, hne, hlt, hval, heq⟩ := toDigitsCore_digits (n + 1 + 1) (n + 1) [] (by omega)
  have hlist : ("-" ++ Nat.repr (n + 1)).toList = '-' :: L.map Nat.digitChar := by
    simp [Nat.repr, Nat.toDigits, heq, List.asString]
  obtain ⟨hr, hd⟩ := parse_digitChars L hne hlt
  unfold parseIntMath
  have hw : ('-' :: L.map Nat.digitChar).dropWhile isStrWhiteSpaceChar =
      '-' :: L.map Nat.digitChar := rfl
  have hs : splitSign ('-' :: L.map Nat.digitChar) = (true, L.map Nat.digitChar) := rfl
  simp only [hlist, hw, hs, hr, hd, hval]
  simp [hne, Int.negSucc_eq]

/-- The high score written by `gameOver()` is the one a later engine reads. -/
theorem loadHighScore_numberToString (v : Int) :
    loadHighScore (some (numberToString v)) = v := by
  cases v with
  | ofNat n =>
    simp only [loadHighScore, numberToString, Option.getD_some, parseIntMath_repr]
    rfl
  | negSucc n =>
    simp only [loadHighScore, numberToString, Option.getD_some, parseIntMath_neg_repr]

/-! ## The high score at game end -/

theorem gameOver_highScore (s : Engine) :
    (gameOver s).highScore = max (s.score : Int) s.highScore ∧
    (loadHighScore s.storage = s.highScore →
      loadHighScore (gameOver s).storage = max (s.score : Int) s.highScore) ∧
    (s.storage = some (numberToString s.highScore) →
      (gameOver s).storage = some (numberToString (max (s.score : Int) s.highScore))) := by
  have hc := clearInterval_frame { s with gameState := GameState.gameOver } s.gameLoop
  obtain ⟨_, _, _, _, _, _, c7, c8, _, c10⟩ := hc
  unfold gameOver
  simp only [c7, c8]
  by_cases hgt : (s.score : Int) > s.highScore
  · have hmax : max (s.score : Int) s.highScore = (s.score : Int) := max_eq_left (le_of_lt hgt)
    simp only [hgt, if_true, hmax]
    exact ⟨trivial, fun _ => loadHighScore_numberToString _, fun _ => trivial⟩
  · have hmax : max (s.score : Int) s.highScore = s.highScore := max_eq_right (not_lt.1 hgt)
    simp only [hgt, if_false, hmax, c8, c10]
    exact ⟨trivial, fun h => h, fun h => h⟩

/-- A tick that takes a playing game to `'gameOver'` is a collision tick. -/
theorem update_to_gameOver (random : Nat → ℚ) (fuel : Nat) (st st' : Engine)
    (hplay : st.gameState = GameState.playing)
    (hupd : update random fuel st = some st')
    (hover : st'.gameState = GameState.gameOver) :
    st' = gameOver (commitDirection st) := by
  rcases update_cases random fuel st st' hupd with
    ⟨hp, _⟩ | ⟨_, _, rfl⟩ | ⟨_, _, _, _, _, h⟩ |
    ⟨_, _, _, _, _, _, _, rfl⟩ | ⟨_, s0, _, g, _, _, _, _, hg, rfl⟩
  · exact absurd hplay hp
  · rw [show (commitDirection st).gameState = st.gameState from rfl, hplay] at hover
    cases hover
  · exact h
  · simp only [commitDirection] at hover
    rw [hplay] at hover
    cases hover
  · rw [(eat_result random fuel st g _ hg).2.1, hplay] at hover
    cases hover

/-- C6. Let a tick of `update()` take a playing game with score `S` to `'gameOver'`,
and let the engine's high score `H` be the one its storage holds (what
`parseInt(...) || 0` reads from it). Then after the tick the engine's high score is
`max(S, H)`, the storage reads as `max(S, H)`, an engine constructed from that
storage loads `max(S, H)`, and when the storage held the decimal text of `H` it now
holds the decimal text of `max(S, H)`. -/
theorem high_score_at_game_end (random : Nat → ℚ) (fuel : Nat) (st st' : Engine)
    (tileCount : Nat)
    (hplay : st.gameState = GameState.playing)
    (hupd : update random fuel st = some st')
    (hover : st'.gameState = GameState.gameOver)
    (hstored : loadHighScore st.storage = st.highScore) :
    st'.highScore = max (st.score : Int) st.highScore ∧
    loadHighScore st'.storage = max (st.score : Int) st.highScore ∧
    (newSnakeGame st'.storage tileCount).highScore = max (st.score : Int) st.highScore ∧
    (st.storage = some (numberToString st.highScore) →
      st'.storage = some (numberToString (max (st.score : Int) st.highScore))) := by
  rw [update_to_gameOver random fuel st st' hplay hupd hover]
  obtain ⟨h1, h2, h3⟩ := gameOver_highScore (commitDirection st)
  exact ⟨h1, h2 hstored, h2 hstored, h3⟩

/-- C6, at a concrete input: score 7 against a stored high score of 3. -/
theorem high_score_at_game_end_witness :
    loadHighScore scoredEngine.storage = scoredEngine.highScore ∧
    ∃ st', update zeroRandom 0 scoredEngine = some st' ∧
      st'.highScore = 7 ∧ st'.storage = some "7" ∧
      (newSnakeGame st'.storage 20).highScore = 7 := by
  have hupd : update zeroRandom 0 scoredEngine = some (gameOver (commitDirection scoredEngine)) :=
    update_collide zeroRandom 0 scoredEngine ⟨19, 10⟩ [⟨18, 10⟩, ⟨17, 10⟩] rfl rfl
      (Or.inl (by decide))
  have h := high_score_at_game_end zeroRandom 0 scoredEngine _ 20 rfl hupd
    (gameOver_frame _).2.1 (by decide)
  exact ⟨by decide, _, hupd, h.1, h.2.2.2 (by decide), h.2.2.1⟩

/-! ## Keyboard input -/

/-- C11, what the code does. In state `'paused'` the keys `' '`, `'Space'` and
`'Enter'` fall through every branch of `handleKeyPress`: the engine is returned
unchanged and stays paused, although `showPauseScreen()` tells the player to press
SPACE to continue and `togglePause()` on the same state does resume. -/
theorem space_key_leaves_game_paused (random : Nat → ℚ) (fuel : Nat) (key : String)
    (st : Engine) (hkey : key = " " ∨ key = "Space" ∨ key = "Enter")
    (hpaused : st.gameState = GameState.paused) :
    handleKeyPress random fuel key st = some st ∧
    (∀ s, handleKeyPress random fuel key st = some s → s.gameState = GameState.paused) ∧
    (togglePause st).gameState = GameState.playing := by
  have h : handleKeyPress random fuel key st = some st := by
    unfold handleKeyPress
    simp [hkey, hpaused]
  refine ⟨h, ?_, (togglePause_gameState st).2 hpaused⟩
  intro s hs
  rw [h] at hs
  cases hs
  exact hpaused

/-- C11, at a concrete input: the sample game, paused, receives the key `' '`. -/
theorem space_key_leaves_game_paused_witness :
    pausedEngine.gameState = GameState.paused ∧
    handleKeyPress zeroRandom 1 " " pausedEngine = some pausedEngine ∧
    (togglePause pausedEngine).gameState = GameState.playing := by
  have h := space_key_leaves_game_paused zeroRandom 1 " " pausedEngine (Or.inl rfl)
    (by decide)
  exact ⟨by decide, h.1, h.2.2⟩

theorem setDirection_twice (st : Engine) (x y : Int) :
    setDirection (setDirection st x y) x y = setDirection st x y := by
  unfold setDirection
  by_cases hp : st.gameState = GameState.playing
  · by_cases hrev : st.direction.x = -x ∧ st.direction.y = -y
    · simp [hp, hrev]
    · simp [hp, hrev]
  · simp [hp]

/-- C14, as amended. Delivering the same key twice in succession through
`handleKeyPress` gives the result of delivering it once, for every key and every
state except the keys `' '`, `'Space'`, `'Enter'` in state `'menu'` or `'gameOver'`;
there the first delivery starts the game and the second pauses it. -/
theorem double_delivery (random : Nat → ℚ) (fuel : Nat) (key : String) (st : Engine) :
    (¬ (isStartKey key ∧
        (st.gameState = GameState.menu ∨ st.gameState = GameState.gameOver)) →
      handleKeyPressTwice random fuel key st = handleKeyPress random fuel key st) ∧
    (isStartKey key →
      st.gameState = GameState.menu ∨ st.gameState = GameState.gameOver →
      ∀ s, handleKeyPress random fuel key st = some s →
        s.gameState = GameState.playing ∧
        handleKeyPressTwice random fuel key st = some (togglePause s) ∧
        (togglePause s).gameState = GameState.paused) := by
  constructor
  · intro hexc
    unfold handleKeyPressTwice
    by_cases hk : key = " " ∨ key = "Space" ∨ key = "Enter"
    · have hst : ¬ (st.gameState = GameState.menu ∨ st.gameState = GameState.gameOver) :=
        fun h => hexc ⟨hk, h⟩
      have hm : st.gameState ≠ GameState.menu := fun h => hst (Or.inl h)
      have hg : st.gameState ≠ GameState.gameOver := fun h => hst (Or.inr h)
      by_cases hp : st.gameState = GameState.playing
      · have h1 : handleKeyPress random fuel key st = some (togglePause st) := by
          unfold handleKeyPress; simp [hk, hp]
        have hpaused := (togglePause_gameState st).1 hp
        have h2 : handleKeyPress random fuel key (togglePause st) = some (togglePause st) := by
          unfold handleKeyPress; simp [hk, hpaused]
        rw [h1]
        exact h2
      · have h1 : handleKeyPress random fuel key st = some st := by
          unfold handleKeyPress; simp [hk, hm, hg, hp]
        rw [h1]
        exact h1
    · by_cases hr : key = "r" ∨ key = "R"
      · by_cases hs : st.gameState = GameState.gameOver ∨ st.gameState = GameState.paused
        · have h1 : handleKeyPress random fuel key st = restartGame random fuel st := by
            unfold handleKeyPress; simp [hk, hr, hs]
          rw [h1]
          cases hre : restartGame random fuel st with
          | none => rfl
          | some s =>
            have hplay := (restartGame_result random fuel st s hre).2.1
            show handleKeyPress random fuel key s = some s
            unfold handleKeyPress
            simp [hk, hr, hplay]
        · have h1 : handleKeyPress random fuel key st = some st := by
            unfold handleKeyPress; simp [hk, hr, hs]
          rw [h1]
          exact h1
      · by_cases h3 : key = "ArrowUp" ∨ key = "w" ∨ key = "W"
        · have h1 : ∀ s, handleKeyPress random fuel key s = some (setDirection s 0 (-1)) := by
            intro s; unfold handleKeyPress; simp [hk, hr, h3]
          rw [h1 st]
          show handleKeyPress random fuel key _ = _
          rw [h1, setDirection_twice]
        · by_cases h4 : key = "ArrowDown" ∨ key = "s" ∨ key = "S"
          · have h1 : ∀ s, handleKeyPress random fuel key s = some (setDirection s 0 1) := by
              intro s; unfold handleKeyPress; simp [hk, hr, h3, h4]
            rw [h1 st]
            show handleKeyPress random fuel key _ = _
            rw [h1, setDirection_twice]
          · by_cases h5 : key = "ArrowLeft" ∨ key = "a" ∨ key = "A"
            · have h1 : ∀ s, handleKeyPress random fuel key s =
                  some (setDirection s (-1) 0) := by
                intro s; unfold handleKeyPress; simp [hk, hr, h3, h4, h5]
              rw [h1 st]
              show handleKeyPress random fuel key _ = _
              rw [h1, setDirection_twice]
            · by_cases h6 : key = "ArrowRight" ∨ key = "d" ∨ key = "D"
              · have h1 : ∀ s, handleKeyPress random fuel key s =
                    some (setDirection s 1 0) := by
                  intro s; unfold handleKeyPress; simp [hk, hr, h3, h4, h5, h6]
                rw [h1 st]
                show handleKeyPress random fuel key _ = _
                rw [h1, setDirection_twice]
              · have h1 : ∀ s, handleKeyPress random fuel key s = some s := by
                  intro s; unfold handleKeyPress; simp [hk, hr, h3, h4, h5, h6]
                rw [h1 st]
                exact h1 st
  · intro hk hst s hs
    have hk' : key = " " ∨ key = "Space" ∨ key = "Enter" := hk
    have hplay : s.gameState = GameState.playing := by
      rcases hst with hm | hg
      · have h1 : handleKeyPress random fuel key st = startGame random fuel st := by
          unfold handleKeyPress; simp [hk', hm]
        rw [h1] at hs
        exact (startGame_result random fuel st s hs).2.1
      · have h1 : handleKeyPress random fuel key st = restartGame random fuel st := by
          unfold handleKeyPress; simp [hk', hg]
        rw [h1] at hs
        exact (restartGame_result random fuel st s hs).2.1
    refine ⟨hplay, ?_, (togglePause_gameState s).1 hplay⟩
    unfold handleKeyPressTwice
    rw [hs]
    show handleKeyPress random fuel key s = some (togglePause s)
    unfold handleKeyPress
    simp [hk', hplay]

/-- C14, at a concrete input: the key `'ArrowUp'` delivered twice to the sample game
sets the pending direction once. -/
theorem double_delivery_witness :
    handleKeyPressTwice zeroRandom 1 "ArrowUp" foodAheadEngine =
        handleKeyPress zeroRandom 1 "ArrowUp" foodAheadEngine ∧
      handleKeyPress zeroRandom 1 "ArrowUp" foodAheadEngine =
        some { foodAheadEngine with nextDirection := ⟨0, -1⟩ } :=
  ⟨(double_delivery zeroRandom 1 "ArrowUp" foodAheadEngine).1 (by decide), by decide⟩

/-- C14, the claim as written fails: on a fresh engine the key `' '` delivered once
starts the game, delivered twice it starts and then pauses it. -/
theorem double_delivery_counterexample :
    ∃ once twice,
      handleKeyPress zeroRandom 1 " " (newSnakeGame none 20) = some once ∧
      handleKeyPressTwice zeroRandom 1 " " (newSnakeGame none 20) = some twice ∧
      once.gameState = GameState.playing ∧ twice.gameState = GameState.paused ∧
      once ≠ twice := by
  have h1 : handleKeyPress zeroRandom 1 " " (newSnakeGame none 20) = some startedEngine := by
    have : handleKeyPress zeroRandom 1 " " (newSnakeGame none 20) =
        startGame zeroRandom 1 (newSnakeGame none 20) := by
      unfold handleKeyPress; simp [newSnakeGame]
    rw [this]
    exact startedEngine_eq
  have h2 : handleKeyPress zeroRandom 1 " " startedEngine = some (togglePause startedEngine) := by
    decide
  refine ⟨startedEngine, togglePause startedEngine, h1, ?_, by decide, by decide, by decide⟩
  unfold handleKeyPressTwice
  rw [h1]
  exact h2

/-! ## Live timers -/

theorem clearInterval_owned (st : Engine)
    (h : st.timers = [] ∨ ∃ t, st.timers = [t] ∧ st.gameLoop = some t.handle) :
    (clearInterval st st.gameLoop).timers = [] := by
  rcases h with h | ⟨t, ht, hg⟩
  · cases hl : st.gameLoop <;> simp [clearInterval, h]
  · rw [hg]; simp [clearInterval, ht]

theorem timerInvariant_owned (st : Engine) (h : timerInvariant st) :
    st.timers = [] ∨ ∃ t, st.timers = [t] ∧ st.gameLoop = some t.handle := by
  by_cases hp : st.gameState = GameState.playing
  · exact Or.inr (h.1 hp)
  · exact Or.inl (h.2 hp)

theorem gameOver_timers (st : Engine) :
    (gameOver st).timers = (clearInterval st st.gameLoop).timers := by
  unfold gameOver
  cases hl : st.gameLoop <;> simp only [clearInterval] <;> split <;> rfl

theorem startGame_timers (random : Nat → ℚ) (fuel : Nat) (st st' : Engine)
    (h : startGame random fuel st = some st') :
    st'.timers = st.timers ++ [⟨st.nextHandle, 120⟩] ∧ st'.gameLoop = some st.nextHandle := by
  unfold startGame at h
  simp only at h
  split at h
  · simp at h
  · rename_i g hg
    obtain ⟨k, _, _, hst⟩ := generateFood_some random fuel _ _ hg
    simp only [Option.some.injEq] at h
    subst h
    subst hst
    exact ⟨rfl, rfl⟩

theorem startGame_timerInvariant (random : Nat → ℚ) (fuel : Nat) (st st' : Engine)
    (hempty : st.timers = []) (h : startGame random fuel st = some st') :
    timerInvariant st' := by
  obtain ⟨ht, hl⟩ := startGame_timers random fuel st st' h
  have hplay := (startGame_result random fuel st st' h).2.1
  rw [hempty] at ht
  exact ⟨fun _ => ⟨⟨st.nextHandle, 120⟩, ht, hl⟩, fun hn => absurd hplay hn⟩

theorem togglePause_timerInvariant (st : Engine) (h : timerInvariant st) :
    timerInvariant (togglePause st) := by
  by_cases hp : st.gameState = GameState.playing
  · have hstate := (togglePause_gameState st).1 hp
    have htimers : (togglePause st).timers = [] := by
      have hc := clearInterval_owned { st with gameState := GameState.paused }
        (timerInvariant_owned st h)
      unfold togglePause
      simp only [hp, if_true]
      exact hc
    exact ⟨fun hplay => (by rw [hstate] at hplay; cases hplay), fun _ => htimers⟩
  · by_cases hq : st.gameState = GameState.paused
    · have hempty := h.2 hp
      have hstate := (togglePause_gameState st).2 hq
      refine ⟨fun _ => ⟨⟨st.nextHandle, st.gameSpeed⟩, ?_, ?_⟩, fun hn => absurd hstate hn⟩
      · unfold togglePause
        simp [hq, setInterval, hempty]
      · unfold togglePause
        simp [hq, setInterval]
    · have he : togglePause st = st := by
        unfold togglePause; simp [hp, hq]
      rw [he]; exact h

theorem gameOver_timerInvariant (st : Engine) (h : timerInvariant st) :
    timerInvariant (gameOver st) := by
  have hstate := (gameOver_frame st).2.1
  refine ⟨fun hplay => (by rw [hstate] at hplay; cases hplay), fun _ => ?_⟩
  rw [gameOver_timers]
  exact clearInterval_owned st (timerInvariant_owned st h)

theorem adjustSpeed_timerInvariant (st : Engine) (hplay : st.gameState = GameState.playing)
    (h : timerInvariant st) : timerInvariant (adjustSpeed st) := by
  unfold adjustSpeed
  split
  · have hc := clearInterval_owned { st with gameSpeed := st.gameSpeed - 5 }
      (timerInvariant_owned st h)
    have hs : (clearInterval { st with gameSpeed := st.gameSpeed - 5 } st.gameLoop).gameState =
        st.gameState := (clearInterval_frame _ _).2.1
    simp only at hc
    simp only [setInterval, hc]
    refine ⟨fun _ => ⟨_, rfl, rfl⟩, fun hn => ?_⟩
    simp only [hs] at hn
    exact absurd hplay hn
  · exact h

theorem update_timerInvariant (random : Nat → ℚ) (fuel : Nat) (st st' : Engine)
    (h : timerInvariant st) (hupd : update random fuel st = some st') :
    timerInvariant st' := by
  rcases update_cases random fuel st st' hupd with
    ⟨_, rfl⟩ | ⟨_, _, rfl⟩ | ⟨_, _, _, _, _, rfl⟩ |
    ⟨_, _, _, _, _, _, _, rfl⟩ | ⟨hp, s0, _, g, _, _, _, _, hg, rfl⟩
  · exact h
  · exact h
  · exact gameOver_timerInvariant (commitDirection st) h
  · exact h
  · obtain ⟨k, _, _, hst⟩ := generateFood_some random fuel _ _ hg
    have hginv : timerInvariant g := by rw [hst]; exact h
    have hgplay : g.gameState = GameState.playing := by rw [hst]; exact hp
    exact adjustSpeed_timerInvariant g hgplay hginv

theorem gatedRun_timerInvariant (random : Nat → ℚ) (st : Engine)
    (hr : GatedRun random st) : timerInvariant st := by
  induction hr with
  | fresh storage tileCount =>
    exact ⟨fun hp => (by cases hp), fun _ => rfl⟩
  | start fuel st st' _ hnp h ih =>
    exact startGame_timerInvariant random fuel st st' (ih.2 hnp) h
  | restart fuel st st' _ h ih =>
    unfold restartGame at h
    exact startGame_timerInvariant random fuel _ st'
      (clearInterval_owned st (timerInvariant_owned st ih)) h
  | pause st _ ih => exact togglePause_timerInvariant st ih
  | tick fuel st st' _ h ih => exact update_timerInvariant random fuel st st' ih h
  | over st _ ih => exact gameOver_timerInvariant st ih

/-- C12, as amended. Starting from a freshly constructed engine, after every sequence
of calls of `startGame()`, `restartGame()`, `togglePause()`, `update()` and
`gameOver()` in which `startGame()` is only called while the game is not playing, at
most one tick timer is live; a playing game has exactly the timer named by
`gameLoop`, and a game in any other state has none. -/
theorem at_most_one_live_timer (random : Nat → ℚ) (st : Engine)
    (hr : GatedRun random st) :
    st.timers.length ≤ 1 ∧
    (st.gameState = GameState.playing →
      ∃ t, st.timers = [t] ∧ st.gameLoop = some t.handle) ∧
    (st.gameState ≠ GameState.playing → st.timers = []) := by
  have h := gatedRun_timerInvariant random st hr
  refine ⟨?_, h.1, h.2⟩
  rcases timerInvariant_owned st h with he | ⟨t, ht, _⟩
  · rw [he]; decide
  · rw [ht]; simp

/-- C12, at a concrete input: a fresh 20 × 20 game, started once. -/
theorem at_most_one_live_timer_witness :
    GatedRun zeroRandom startedEngine ∧ startedEngine.timers.length ≤ 1 :=
  ⟨GatedRun.start 1 (newSnakeGame none 20) startedEngine (GatedRun.fresh none 20)
      (by decide) startedEngine_eq,
    (at_most_one_live_timer zeroRandom startedEngine
      (GatedRun.start 1 (newSnakeGame none 20) startedEngine (GatedRun.fresh none 20)
        (by decide) startedEngine_eq)).1⟩

/-- C12, the claim as written fails: `startGame()` called twice in a row on a fresh
engine leaves two live timers, since `startGame()` does not cancel the outstanding
one. -/
theorem at_most_one_live_timer_counterexample :
    ∃ s, startGame zeroRandom 1 (newSnakeGame none 20) = some startedEngine ∧
      startGame zeroRandom 1 startedEngine = some s ∧
      s.timers = [⟨1, 120⟩, ⟨2, 120⟩] ∧ s.timers.length = 2 := by
  have h : ∃ s, startGame zeroRandom 1 startedEngine = some s := by
    simp [startGame, startedEngine, foodAheadEngine, generateFood, randomCell, zeroRandom,
      onSnake, setInterval]
  obtain ⟨s, hs⟩ := h
  obtain ⟨ht, _⟩ := startGame_timers zeroRandom 1 startedEngine s hs
  have ht' : s.timers = [⟨1, 120⟩, ⟨2, 120⟩] := by rw [ht]; rfl
  exact ⟨s, startedEngine_eq, hs, ht', by rw [ht']; rfl⟩

/-! ## Loading the high score -/

theorem roundToDouble_small (n : Nat) (h : n < 2 ^ 53) : roundToDouble n = some n := by
  have he : ulpExponent n 0 n = 0 := by
    cases n with
    | zero => rfl
    | succ k =>
      have hk : (k + 1) / 2 ^ 0 < 2 ^ 53 := by
        rw [pow_zero, Nat.div_one]; exact h
      simp only [ulpExponent, hk, if_true]
  have hpow : (2 : Nat) ^ 53 ≤ 2 ^ 1024 := by
    apply Nat.pow_le_pow_right
    · decide
    · decide
  have hlim : n < 2 ^ 1024 := Nat.lt_of_lt_of_le h hpow
  unfold roundToDouble
  simp only [he, pow_zero, Nat.div_one, Nat.mod_one, Nat.mul_zero, Nat.mul_one]
  have hno : ¬ (0 > 1 ∨ (0 = 1 ∧ n % 2 = 1)) := by omega
  rw [if_neg hno, if_pos hlim]

/-- Where the integer read from the text is below `2 ^ 53` in size, the Number
`parseInt` returns is that integer. -/
theorem parseInt_of_parseIntMath (s : String) (v : Int) (h : parseIntMath s = some v)
    (hv : v.natAbs < 2 ^ 53) : parseInt s = JSNumber.finite v := by
  unfold parseInt
  rw [h]
  simp only [roundToDouble_small _ hv]
  congr 1
  split <;> omega

theorem parseInt_nan (s : String) (h : parseIntMath s = none) :
    parseInt s = JSNumber.nan := by
  unfold parseInt
  rw [h]

/-- A text that, after leading white space and an optional sign, is empty or starts
with a character that is no decimal digit has no number to read. -/
theorem parseIntMath_no_digit (s : String)
    (h : (splitSign (s.toList.dropWhile isStrWhiteSpaceChar)).2 = [] ∨
      (∃ c cs, (splitSign (s.toList.dropWhile isStrWhiteSpaceChar)).2 = c :: cs ∧
        ∀ d, digitValue c = some d → 10 ≤ d)) :
    parseIntMath s = none := by
  unfold parseIntMath
  dsimp only
  rcases h with h | ⟨c, cs, h, hc⟩
  · rw [h]
    simp [splitRadix, takeDigits]
  · have hzero : c ≠ '0' := by
      intro he
      have := hc 0 (by rw [he]; rfl)
      omega
    have hradix : splitRadix (c :: cs) = (10, c :: cs) := by
      unfold splitRadix
      split
      · rename_i heq; simp only [List.cons.injEq] at heq; exact absurd heq.1 hzero
      · rename_i heq; simp only [List.cons.injEq] at heq; exact absurd heq.1 hzero
      · rfl
    have htake : takeDigits 10 (c :: cs) = [] := by
      unfold takeDigits
      cases hd : digitValue c with
      | none => rfl
      | some d =>
        have := hc d hd
        simp only
        rw [if_neg (by omega)]
    rw [h, hradix]
    simp [htake]

theorem parseIntMath_numberToString (v : Int) :
    parseIntMath (numberToString v) = some v := by
  cases v with
  | ofNat n => exact parseIntMath_repr n
  | negSucc n => exact parseIntMath_neg_repr n

/-- C13, as amended. The Number loaded at construction, `parseInt(stored) || 0`, is
`0` when the key is absent, and `0` when the stored text, after leading white space
and an optional sign, is empty or starts with a character that is no decimal digit;
it is `n` when the text is the decimal text of a non-negative integer `n` below
`2 ^ 53`, and `v` for the decimal text of any integer `v` below `2 ^ 53` in size,
negative ones included. Whenever the number read from the storage is below `2 ^ 53`
in size, this Number is the integer the engine record holds as `highScore`. -/
theorem loadHighScoreNumber_cases :
    loadHighScoreNumber none = JSNumber.finite 0 ∧
    (∀ n : Nat, n < 2 ^ 53 →
      loadHighScoreNumber (some (numberToString (n : Int))) = JSNumber.finite (n : Int)) ∧
    (∀ v : Int, v.natAbs < 2 ^ 53 →
      loadHighScoreNumber (some (numberToString v)) = JSNumber.finite v) ∧
    (∀ s : String,
      (splitSign (s.toList.dropWhile isStrWhiteSpaceChar)).2 = [] ∨
        (∃ c cs, (splitSign (s.toList.dropWhile isStrWhiteSpaceChar)).2 = c :: cs ∧
          ∀ d, digitValue c = some d → 10 ≤ d) →
      loadHighScoreNumber (some s) = JSNumber.finite 0) ∧
    (∀ (storage : Option String) (tileCount : Nat),
      (∀ v, parseIntMath (storage.getD "null") = some v → v.natAbs < 2 ^ 53) →
      loadHighScoreNumber storage =
        JSNumber.finite (newSnakeGame storage tileCount).highScore) := by
  have hsmall : ∀ v : Int, v.natAbs < 2 ^ 53 →
      loadHighScoreNumber (some (numberToString v)) = JSNumber.finite v := by
    intro v hv
    unfold loadHighScoreNumber
    rw [Option.getD_some, parseInt_of_parseIntMath _ v (parseIntMath_numberToString v) hv]
    rfl
  refine ⟨?_, fun n hn => hsmall (n : Int) (by simpa using hn), hsmall, ?_, ?_⟩
  · unfold loadHighScoreNumber
    rw [parseInt_nan _ (by decide)]
    rfl
  · intro s h
    unfold loadHighScoreNumber
    rw [Option.getD_some, parseInt_nan s (parseIntMath_no_digit s h)]
    rfl
  · intro storage tileCount hsafe
    show loadHighScoreNumber storage = JSNumber.finite (loadHighScore storage)
    unfold loadHighScoreNumber loadHighScore
    cases hm : parseIntMath (storage.getD "null") with
    | none =>
      rw [parseInt_nan _ hm]
      rfl
    | some v =>
      rw [parseInt_of_parseIntMath _ v hm (hsafe v hm)]
      rfl

/-- C13, at a concrete input: the text `42` loads `42`, the text `abc` loads `0`. -/
theorem loadHighScoreNumber_cases_witness :
    loadHighScoreNumber (some (numberToString 42)) = JSNumber.finite 42 ∧
      numberToString 42 = "42" ∧
      loadHighScoreNumber (some "abc") = JSNumber.finite 0 :=
  ⟨loadHighScoreNumber_cases.2.1 42 (by decide), by decide,
    loadHighScoreNumber_cases.2.2.2.1 "abc"
      (Or.inr ⟨'a', ['b', 'c'], by decide, by decide⟩)⟩

/-- C13, the claim as written fails: malformed texts with a leading number load that
number instead of `0`, the text of a negative integer loads a negative number, the
well-formed text `9007199254740993` loads `9007199254740992`, and a well-formed text
of 400 digits loads `Infinity`, which is no integer. -/
theorem loadHighScoreNumber_counterexample :
    loadHighScoreNumber (some "12abc") = JSNumber.finite 12 ∧
    loadHighScoreNumber (some "0x1F") = JSNumber.finite 31 ∧
    loadHighScoreNumber (some "-5") = JSNumber.finite (-5) ∧
    numberToString 9007199254740993 = "9007199254740993" ∧
    loadHighScoreNumber (some "9007199254740993") = JSNumber.finite 9007199254740992 ∧
    loadHighScoreNumber (some "1000000000000000000000000000000000000000000000000000000000000000000000000000000000000000000000000000000000000000000000000000000000000000000000000000000000000000000000000000000000000000000000000000000000000000000000000000000000000000000000000000000000000000000000000000000000000000000000000000000000000000000000000000000000000000000000000000000000000000000000000000000000000000000000000000000000000000") =
      JSNumber.infinity false := by
  decide!

/-! ## Distinct segments -/

theorem startSnake_nodup (tileCount : Nat) : (startSnake tileCount).Nodup := by
  simp only [startSnake, List.nodup_cons, List.mem_cons, List.mem_singleton,
    List.not_mem_nil, Pos.mk.injEq, or_false, not_or, not_and, List.nodup_nil, and_true,
    not_false_eq_true]
  refine ⟨⟨fun h => ?_, fun h => ?_⟩, fun h => ?_⟩ <;> omega

theorem update_nodup (random : Nat → ℚ) (fuel : Nat) (st st' : Engine)
    (h : st.snake.Nodup) (hupd : update random fuel st = some st') : st'.snake.Nodup := by
  rcases update_cases random fuel st st' hupd with
    ⟨_, rfl⟩ | ⟨_, _, rfl⟩ | ⟨_, _, _, _, _, rfl⟩ |
    ⟨_, s0, _, _, _, hfree, _, rfl⟩ | ⟨_, s0, _, g, _, _, hfree, _, hg, rfl⟩
  · exact h
  · exact h
  · rw [(gameOver_frame (commitDirection st)).2.2.1]; exact h
  · show (movedHead s0 st.nextDirection :: st.snake.dropLast).Nodup
    refine List.nodup_cons.2 ⟨fun hmem => hfree (List.dropLast_subset _ hmem), ?_⟩
    exact h.sublist (List.dropLast_sublist _)
  · rw [(eat_result random fuel st g _ hg).2.2.1]
    exact List.nodup_cons.2 ⟨hfree, h⟩

/-- C15. In every state reachable after `startGame()` by ticks of `update()` and
`setDirection` calls with unit directions (and also by pause toggles and restarts) no
two segments of the snake occupy the same cell. -/
theorem snake_segments_distinct (random : Nat → ℚ) (st : Engine)
    (hr : Reachable random st) : st.snake.Nodup := by
  induction hr with
  | start fuel st0 st h =>
    rw [(startGame_result random fuel st0 st h).2.2.1]
    exact startSnake_nodup _
  | tick fuel st st' _ h ih => exact update_nodup random fuel st st' ih h
  | turn st d _ _ ih =>
    rw [(setDirection_frame st d.x d.y).2.2.1]; exact ih
  | pause st _ ih =>
    rw [(togglePause_frame st).2.1]; exact ih
  | restart fuel st st' _ h _ =>
    rw [(restartGame_result random fuel st st' h).2.2.1]
    exact startSnake_nodup _

/-- C15, at a concrete input: a fresh 20 × 20 game after `startGame()` and one
tick. -/
theorem snake_segments_distinct_witness :
    ∃ st', update zeroRandom 1 startedEngine = some st' ∧
      st'.snake = [⟨11, 10⟩, ⟨10, 10⟩, ⟨9, 10⟩] ∧ st'.snake.Nodup := by
  have hupd : ∃ st', update zeroRandom 1 startedEngine = some st' ∧
      st'.snake = [⟨11, 10⟩, ⟨10, 10⟩, ⟨9, 10⟩] := by
    simp [update, startedEngine, foodAheadEngine, hitsWall, movedHead, onSnake]
  obtain ⟨st', hst', hsnake⟩ := hupd
  exact ⟨st', hst', hsnake, snake_segments_distinct zeroRandom st'
    (Reachable.tick 1 startedEngine st'
      (Reachable.start 1 (newSnakeGame none 20) startedEngine startedEngine_eq) hst')⟩

/-! ## What writes the high score -/

theorem gameOver_writes (s : Engine) :
    (¬ (s.score : Int) > s.highScore →
      (gameOver s).highScore = s.highScore ∧ (gameOver s).storage = s.storage) ∧
    ((s.score : Int) > s.highScore →
      (gameOver s).highScore = (s.score : Int) ∧
      (gameOver s).storage = some (numberToString (s.score : Int))) := by
  obtain ⟨_, _, _, _, _, _, c7, c8, _, c10⟩ :=
    clearInterval_frame { s with gameState := GameState.gameOver } s.gameLoop
  unfold gameOver
  simp only [c7, c8]
  constructor
  · intro hle
    simp only [hle, if_false, c8, c10]
    exact ⟨trivial, trivial⟩
  · intro hgt
    simp only [hgt, if_true]
    exact ⟨trivial, trivial⟩

theorem update_writes (random : Nat → ℚ) (fuel : Nat) (st st' : Engine)
    (hupd : update random fuel st = some st') :
    (st'.highScore = st.highScore ∧ st'.storage = st.storage) ∨
    (st.gameState = GameState.playing ∧ st'.gameState = GameState.gameOver ∧
      (st.score : Int) > st.highScore ∧ st'.highScore = (st.score : Int) ∧
      st'.storage = some (numberToString (st.score : Int))) := by
  rcases update_cases random fuel st st' hupd with
    ⟨_, rfl⟩ | ⟨_, _, rfl⟩ | ⟨hp, _, _, _, _, rfl⟩ |
    ⟨_, _, _, _, _, _, _, rfl⟩ | ⟨_, s0, _, g, _, _, _, _, hg, rfl⟩
  · exact Or.inl ⟨rfl, rfl⟩
  · exact Or.inl ⟨rfl, rfl⟩
  · by_cases hgt : (st.score : Int) > st.highScore
    · exact Or.inr ⟨hp, (gameOver_frame _).2.1, hgt,
        (gameOver_writes (commitDirection st)).2 hgt⟩
    · exact Or.inl ((gameOver_writes (commitDirection st)).1 hgt)
  · exact Or.inl ⟨rfl, rfl⟩
  · have hr := eat_result random fuel st g _ hg
    exact Or.inl ⟨hr.2.2.2.2.2.2.1, hr.2.2.2.2.2.2.2.1⟩

/-- C16. `startGame()`, `restartGame()`, `togglePause()` and `setDirection()` leave
the engine's high score and the stored one unchanged, in every state (a restart from
`'paused'` with `score > highScore` included); a tick of `update()` that changes
either of them is a tick that takes a playing game to `'gameOver'` with
`score > highScore`, and it writes the score to both; every other tick, and
`gameOver()` itself when `score ≤ highScore`, leaves both unchanged. -/
theorem high_score_written_only_at_game_end (random : Nat → ℚ) (fuel : Nat)
    (st : Engine) :
    (∀ st', startGame random fuel st = some st' →
      st'.highScore = st.highScore ∧ st'.storage = st.storage) ∧
    (∀ st', restartGame random fuel st = some st' →
      st'.highScore = st.highScore ∧ st'.storage = st.storage) ∧
    ((togglePause st).highScore = st.highScore ∧ (togglePause st).storage = st.storage) ∧
    (∀ x y, (setDirection st x y).highScore = st.highScore ∧
      (setDirection st x y).storage = st.storage) ∧
    (∀ st', update random fuel st = some st' →
      (st'.highScore ≠ st.highScore ∨ st'.storage ≠ st.storage) →
      st.gameState = GameState.playing ∧ st'.gameState = GameState.gameOver ∧
        (st.score : Int) > st.highScore ∧ st'.highScore = (st.score : Int) ∧
        st'.storage = some (numberToString (st.score : Int))) ∧
    (∀ st', update random fuel st = some st' →
      (st.gameState ≠ GameState.playing ∨ st'.gameState ≠ GameState.gameOver ∨
        ¬ (st.score : Int) > st.highScore) →
      st'.highScore = st.highScore ∧ st'.storage = st.storage) ∧
    (¬ (st.score : Int) > st.highScore →
      (gameOver st).highScore = st.highScore ∧ (gameOver st).storage = st.storage) := by
  refine ⟨fun st' h => ?_, fun st' h => ?_, ?_, fun x y => ?_, fun st' h hne => ?_,
    fun st' h hno => ?_, (gameOver_writes st).1⟩
  · have hr := startGame_result random fuel st st' h
    exact ⟨hr.2.2.2.2.2.2.2.1, hr.2.2.2.2.2.2.2.2.1⟩
  · have hr := restartGame_result random fuel st st' h
    exact ⟨hr.2.2.2.2.2.2.2.1, hr.2.2.2.2.2.2.2.2.1⟩
  · have hr := togglePause_frame st
    exact ⟨hr.2.2.2.2.2.2.1, hr.2.2.2.2.2.2.2.2⟩
  · have hr := setDirection_frame st x y
    exact ⟨hr.2.2.2.2.2.2.1, hr.2.2.2.2.2.2.2.2⟩
  · rcases update_writes random fuel st st' h with ⟨h1, h2⟩ | hw
    · rcases hne with hne | hne
      · exact absurd h1 hne
      · exact absurd h2 hne
    · exact hw
  · rcases update_writes random fuel st st' h with hsame | ⟨h1, h2, h3, _⟩
    · exact hsame
    · rcases hno with hno | hno | hno
      · exact absurd h1 hno
      · exact absurd h2 hno
      · exact absurd h3 hno

/-- C16, at a concrete input: restarting the paused sample game with score 7 above
the stored high score 3 writes nothing, and the collision tick of that game writes 7
to both. -/
theorem high_score_written_only_at_game_end_witness :
    (∃ st', restartGame zeroRandom 1 (togglePause scoredEngine) = some st' ∧
      st'.highScore = 3 ∧ st'.storage = some "3") ∧
    (∃ st', update zeroRandom 1 scoredEngine = some st' ∧
      st'.highScore = 7 ∧ st'.storage = some "7") := by
  constructor
  · have hre : ∃ st', restartGame zeroRandom 1 (togglePause scoredEngine) = some st' := by
      simp [restartGame, startGame, togglePause, scoredEngine, atWallEngine,
        foodAheadEngine, clearInterval, generateFood, randomCell, zeroRandom, onSnake,
        setInterval]
    obtain ⟨st', hst'⟩ := hre
    have h := (high_score_written_only_at_game_end zeroRandom 1
      (togglePause scoredEngine)).2.1 st' hst'
    exact ⟨st', hst', h.1.trans (by decide), h.2.trans (by decide)⟩
  · have hupd : update zeroRandom 1 scoredEngine =
        some (gameOver (commitDirection scoredEngine)) :=
      update_collide zeroRandom 1 scoredEngine ⟨19, 10⟩ [⟨18, 10⟩, ⟨17, 10⟩] rfl rfl
        (Or.inl (by decide))
    have h := (high_score_written_only_at_game_end zeroRandom 1
      scoredEngine).2.2.2.2.1 _ hupd (Or.inl (by decide))
    exact ⟨_, hupd, h.2.2.2.1, h.2.2.2.2.trans (by decide)⟩

/-! ## The legacy script against the engine -/

theorem legacyHead_eq (s0 : Pos) (d : LegacyDirection) :
    legacyHead s0 d = movedHead s0 (directionDelta d) := by
  cases d <;> simp [legacyHead, movedHead, directionDelta] <;> omega

theorem legacyHead_ne (s0 : Pos) (d : LegacyDirection) : legacyHead s0 d ≠ s0 := by
  intro h
  have hx := congrArg Pos.x h
  have hy := congrArg Pos.y h
  cases d <;> simp only [legacyHead] at hx hy <;> omega

theorem legacy_any_iff (rest : List Pos) (head : Pos) :
    rest.any (fun segment => head.x == segment.x && head.y == segment.y) = true ↔
      head ∈ rest := by
  rw [List.any_eq_true]
  constructor
  · rintro ⟨seg, hmem, h⟩
    simp only [Bool.and_eq_true, beq_iff_eq] at h
    have : seg = head := by
      cases seg; cases head; simp_all
    exact this ▸ hmem
  · intro h
    exact ⟨head, h, by simp⟩

theorem legacyUpdate_collide (random : Nat → ℚ) (st : Engine) (d : LegacyDirection)
    (s0 : Pos) (rest : List Pos) (hsnake : st.snake = s0 :: rest)
    (hcol : ¬ inGrid st.tileCount (legacyHead s0 d) ∨ legacyHead s0 d ∈ rest) :
    legacyUpdate random (legacyOf st d) = some { legacyOf st d with gameOver := true } := by
  unfold legacyUpdate
  simp only [legacyOf, hsnake, Bool.false_eq_true, if_false]
  by_cases hin : inGrid st.tileCount (legacyHead s0 d)
  · have hmem : legacyHead s0 d ∈ rest := by
      rcases hcol with h | h
      · exact absurd hin h
      · exact h
    have hwall : ¬ ((legacyHead s0 d).x < 0 ∨ (legacyHead s0 d).x ≥ (st.tileCount : Int) ∨
        (legacyHead s0 d).y < 0 ∨ (legacyHead s0 d).y ≥ (st.tileCount : Int)) := by
      unfold inGrid at hin; omega
    rw [if_neg hwall, if_pos ((legacy_any_iff rest _).2 hmem)]
  · have hwall : (legacyHead s0 d).x < 0 ∨ (legacyHead s0 d).x ≥ (st.tileCount : Int) ∨
        (legacyHead s0 d).y < 0 ∨ (legacyHead s0 d).y ≥ (st.tileCount : Int) := by
      unfold inGrid at hin; omega
    rw [if_pos hwall]

theorem legacyUpdate_advance (random : Nat → ℚ) (st : Engine) (d : LegacyDirection)
    (s0 : Pos) (rest : List Pos) (hsnake : st.snake = s0 :: rest)
    (hin : inGrid st.tileCount (legacyHead s0 d)) (hfree : legacyHead s0 d ∉ rest) :
    legacyUpdate random (legacyOf st d) =
      if st.food = some (legacyHead s0 d) then
        some (legacyGenerateFood random
          { legacyOf st d with snake := legacyHead s0 d :: st.snake, score := st.score + 1 })
      else
        some { legacyOf st d with snake := legacyHead s0 d :: st.snake.dropLast } := by
  unfold legacyUpdate
  simp only [legacyOf, hsnake, Bool.false_eq_true, if_false]
  have hwall : ¬ ((legacyHead s0 d).x < 0 ∨ (legacyHead s0 d).x ≥ (st.tileCount : Int) ∨
      (legacyHead s0 d).y < 0 ∨ (legacyHead s0 d).y ≥ (st.tileCount : Int)) := by
    unfold inGrid at hin; omega
  have hany : ¬ (rest.any (fun segment =>
      (legacyHead s0 d).x == segment.x && (legacyHead s0 d).y == segment.y) = true) := by
    rw [legacy_any_iff]; exact hfree
  rw [if_neg hwall, if_neg hany]
  rfl

/-- C17. On an `n × n` grid, take a playing engine with a non-empty snake and the
legacy game with the same snake, food and score, the legacy direction `d` and the
engine's pending direction the unit vector of `d`. The legacy `update()` returns, and
it reports a collision exactly when the engine's `update()` returns with
`'gameOver'`. Without a collision every result of the engine's tick is still playing
with the same snake and the same score as the legacy result; the engine's tick
returns on a tick that does not eat, and on an eating tick once the random source
offers a cell off the grown snake within the fuel of `generateFood()`. -/
theorem legacy_same_mechanics (random : Nat → ℚ) (fuel : Nat) (st : Engine)
    (d : LegacyDirection) (hplay : st.gameState = GameState.playing)
    (hne : st.snake ≠ []) (hdir : st.nextDirection = directionDelta d) :
    ∃ g, legacyUpdate random (legacyOf st d) = some g ∧
      (g.gameOver = true →
        ∃ st', update random fuel st = some st' ∧ st'.gameState = GameState.gameOver) ∧
      (g.gameOver = false →
        (∀ st', update random fuel st = some st' →
          st'.gameState = GameState.playing ∧ st'.snake = g.snake ∧ st'.score = g.score) ∧
        (g.score = st.score → ∃ st', update random fuel st = some st') ∧
        (∀ k, k < fuel →
          randomCell random st.tileCount (st.drawn + 12 + 2 * k) ∉ g.snake →
          ∃ st', update random fuel st = some st')) := by
  cases hsnake : st.snake with
  | nil => exact absurd hsnake hne
  | cons s0 rest =>
    have hhead : movedHead s0 st.nextDirection = legacyHead s0 d := by
      rw [hdir, legacyHead_eq]
    by_cases hin : inGrid st.tileCount (legacyHead s0 d)
    · by_cases hmem : legacyHead s0 d ∈ rest
      · refine ⟨_, legacyUpdate_collide random st d s0 rest hsnake (Or.inr hmem), ?_, ?_⟩
        · intro _
          refine ⟨_, update_collide random fuel st s0 rest hplay hsnake (Or.inr ?_),
            (gameOver_frame _).2.1⟩
          rw [hhead, hsnake]
          exact List.mem_cons_of_mem _ hmem
        · intro h; cases h
      · have hfree : movedHead s0 st.nextDirection ∉ st.snake := by
          rw [hhead, hsnake]
          intro h
          rcases List.mem_cons.1 h with h | h
          · exact legacyHead_ne s0 d h
          · exact hmem h
        have hin' : inGrid st.tileCount (movedHead s0 st.nextDirection) := by
          rw [hhead]; exact hin
        have hleg := legacyUpdate_advance random st d s0 rest hsnake hin hmem
        by_cases hfood : st.food = some (legacyHead s0 d)
        · rw [if_pos hfood] at hleg
          have hfood' : st.food = some (movedHead s0 st.nextDirection) := by
            rw [hhead]; exact hfood
          have hupd := update_eat random fuel st s0 rest hplay hsnake hin' hfree hfood'
          refine ⟨_, hleg, fun h => (by cases h), fun _ => ⟨?_, ?_, ?_⟩⟩
          · intro st' hst'
            rw [hupd] at hst'
            cases hg : generateFood random fuel (eatState st (movedHead s0 st.nextDirection)) with
            | none => rw [hg] at hst'; simp at hst'
            | some g =>
              rw [hg] at hst'
              simp only [Option.map, Option.some.injEq] at hst'
              obtain ⟨_, h2, h3, _, _, h6, _⟩ := eat_result random fuel st g _ hg
              subst hst'
              refine ⟨by rw [h2]; exact hplay, ?_, h6⟩
              rw [h3, hhead]
              rfl
          · intro hscore
            exact absurd hscore (by
              show st.score + 1 ≠ st.score
              omega)
          · intro k hk hcell
            have hcell' : randomCell random st.tileCount (st.drawn + 12 + 2 * k) ∉
                movedHead s0 st.nextDirection :: st.snake := by
              rw [hhead]; exact hcell
            obtain ⟨g, hg⟩ := generateFood_returns random fuel
              (eatState st (movedHead s0 st.nextDirection)) k hk hcell'
            exact ⟨adjustSpeed g, by rw [hupd, hg]; rfl⟩
        · rw [if_neg hfood] at hleg
          have hfood' : st.food ≠ some (movedHead s0 st.nextDirection) := by
            rw [hhead]; exact hfood
          have hupd := update_move random fuel st s0 rest hplay hsnake hin' hfree hfood'
          refine ⟨_, hleg, fun h => (by cases h), fun _ => ⟨?_, fun _ => ⟨_, hupd⟩,
            fun _ _ _ => ⟨_, hupd⟩⟩⟩
          intro st' hst'
          rw [hupd] at hst'
          simp only [Option.some.injEq] at hst'
          subst hst'
          refine ⟨hplay, ?_, rfl⟩
          show movedHead s0 st.nextDirection :: st.snake.dropLast =
            legacyHead s0 d :: st.snake.dropLast
          rw [hhead]
    · refine ⟨_, legacyUpdate_collide random st d s0 rest hsnake (Or.inl hin), ?_, ?_⟩
      · intro _
        refine ⟨_, update_collide random fuel st s0 rest hplay hsnake (Or.inl ?_),
          (gameOver_frame _).2.1⟩
        rw [hhead]; exact hin
      · intro h; cases h

/-- C17, at a concrete input: the sample game with the food directly ahead; both
implementations grow the snake to four segments and raise the score to one. -/
theorem legacy_same_mechanics_witness :
    ∃ g st', legacyUpdate zeroRandom (legacyOf foodAheadEngine LegacyDirection.right) = some g ∧
      update zeroRandom 1 foodAheadEngine = some st' ∧
      g.gameOver = false ∧ g.snake = [⟨11, 10⟩, ⟨10, 10⟩, ⟨9, 10⟩, ⟨8, 10⟩] ∧
      st'.snake = g.snake ∧ st'.score = g.score ∧ g.score = 1 := by
  obtain ⟨g, hg, _, hsame⟩ := legacy_same_mechanics zeroRandom 1 foodAheadEngine
    LegacyDirection.right rfl (by decide) rfl
  have hgv : g.gameOver = false ∧ g.snake = [⟨11, 10⟩, ⟨10, 10⟩, ⟨9, 10⟩, ⟨8, 10⟩] ∧
      g.score = 1 := by
    have hf : foodAheadEngine.food = some (legacyHead ⟨10, 10⟩ LegacyDirection.right) := by
      decide
    have hl := legacyUpdate_advance zeroRandom foodAheadEngine LegacyDirection.right
      ⟨10, 10⟩ [⟨9, 10⟩, ⟨8, 10⟩] rfl (by decide) (by decide)
    rw [if_pos hf] at hl
    rw [hl] at hg
    cases hg
    exact ⟨rfl, rfl, rfl⟩
  obtain ⟨hres, _, hret⟩ := hsame hgv.1
  obtain ⟨st', hst'⟩ := hret 0 (by decide) (by
    rw [hgv.2.1]
    simp [randomCell, zeroRandom, foodAheadEngine])
  obtain ⟨_, h2, h3⟩ := hres st' hst'
  exact ⟨g, st', hg, hst', hgv.1, hgv.2.1, h2, h3, hgv.2.2⟩

end SnakeGame
